import Mathlib

/-!
# StockViz core: a shallow embedding with verified properties

This file embeds the analytical core of the StockViz repository
(`technical_indicators.py`, `portfolio_analyzer.py`, the glue in `app.py`)
into Lean and proves or refutes the spec claims about it.

Conventions of the embedding:
* pandas `Series` of prices are `List ℚ` (real arithmetic modelled exactly);
* a pandas `DataFrame` is a column-oriented table `DF` whose cells are `Val`
  (a string, a number, or the missing value `NaN` written `Val.na`);
* Python exceptions (`ValueError`, `KeyError`, `ZeroDivisionError`) are
  `Except String`;
* Python string methods `str(x)`, `.strip()`, `.upper()` and substring
  containment are modelled character-by-character over `List Char`.
-/

/-! ## Indicator engine (`technical_indicators.py`)

`calculate_ema` models `prices.ewm(span=period, adjust=False).mean()`:
with `α = 2/(period+1)`, `ema[0] = prices[0]` and
`ema[t] = ema[t-1] + α*(prices[t] - ema[t-1])`.
-/
def emaStep (a e p : ℚ) : ℚ := e + a * (p - e)

def emaGo (a : ℚ) : ℚ → List ℚ → List ℚ
  | e, [] => [e]
  | e, p :: ps => e :: emaGo a (emaStep a e p) ps

def calculate_ema (prices : List ℚ) (period : ℕ) : List ℚ :=
  match prices with
  | [] => []
  | p :: ps => emaGo (2 / ((period : ℚ) + 1)) p ps

/-- `calculate_macd` from `technical_indicators.py`: returns `None` when
`len(prices) < slow_period`, otherwise the MACD line (fast EMA minus slow
EMA), the Signal line (EMA of the MACD line) and the Histogram (MACD minus
Signal).  The source's final `dropna()` is the identity here: the
`adjust=False` EMA recursion introduces no NaN for a NaN-free price series,
so no row is ever dropped. -/
def calculate_macd (prices : List ℚ) (fast_period slow_period signal_period : ℕ) :
    Option (List ℚ × List ℚ × List ℚ) :=
  if prices.length < slow_period then none
  else
    let macd_line := List.zipWith (· - ·) (calculate_ema prices fast_period)
      (calculate_ema prices slow_period)
    let signal_line := calculate_ema macd_line signal_period
    let histogram := List.zipWith (· - ·) macd_line signal_line
    some (macd_line, signal_line, histogram)

/-! ## Outlook mapping and the Signal Interpreter score

`portfolio_analyzer.py` imports `analyze_tickers` from
`technical_indicators`, but that function (the Signal Interpreter /
Ticker Ranker of the spec) is not present in the repository sources;
only its import site exists.  The score-to-Outlook mapping and the
ranker below are therefore modelled from the spec. -/
inductive Outlook where
  | strongBullish
  | weakBullish
  | neutral
  | weakBearish
  | strongBearish
deriving DecidableEq, Repr

/-- Modelled from the spec: the fixed-threshold mapping from the Signal
Interpreter integer score to an `Outlook` (part of the missing
`analyze_tickers`): score ≥ 3 → Strong Bullish, ≥ 1 → Weak Bullish,
≤ −3 → Strong Bearish, ≤ −1 → Weak Bearish, else Neutral. -/
def outlook_of_score (score : ℤ) : Outlook :=
  if 3 ≤ score then .strongBullish
  else if 1 ≤ score then .weakBullish
  else if score ≤ -3 then .strongBearish
  else if score ≤ -1 then .weakBearish
  else .neutral

/-- How bearish an outlook is: 0 = Strong Bullish, …, 4 = Strong Bearish. -/
def bearishRank : Outlook → ℕ
  | .strongBullish => 0
  | .weakBullish => 1
  | .neutral => 2
  | .weakBearish => 3
  | .strongBearish => 4

/-! ## Daily change (`get_portfolio_summary`, lines 189–196)

Per summary row the source computes
`daily_change = ((current_price - previous_close) / previous_close) * 100`
under the guard `previous_close > 0`, and `0` otherwise. -/
def daily_change (current_price previous_close : ℚ) : ℚ :=
  if previous_close > 0 then
    (current_price - previous_close) / previous_close * 100
  else 0

/-! ## Ticker Ranker (`analyze_tickers`, imported in `portfolio_analyzer.py`)

Modelled from the spec: the Signal Interpreter is abstracted as an injected
`interp` returning an analysis payload (or `none` on insufficient resampled
history / failed MACD), the market-data source as `hist`. -/
structure TAPayload where
  outlook : Outlook
  confidence : ℕ
  weeklyOutlook : Outlook
  monthlyOutlook : Outlook
  weeklyNotes : List String
  monthlyNotes : List String
deriving DecidableEq, Repr

structure TickerAnalysis where
  ticker : String
  outlook : Outlook
  confidence : ℕ
  weeklyOutlook : Outlook
  monthlyOutlook : Outlook
  weeklyNotes : List String
  monthlyNotes : List String
deriving DecidableEq, Repr

def tagTicker (t : String) (p : TAPayload) : TickerAnalysis :=
  ⟨t, p.outlook, p.confidence, p.weeklyOutlook, p.monthlyOutlook,
    p.weeklyNotes, p.monthlyNotes⟩

/-- Modelled from the spec: the per-ticker collection pass of the missing
`analyze_tickers` — skip (do not error) every ticker whose history has no
data or fewer than 50 points, run the Signal Interpreter, and tag each
successful result with its ticker, preserving first-seen order. -/
def collectAnalyses (interp : List ℚ → Option TAPayload) (hist : String → List ℚ)
    (tickers : List String) : List TickerAnalysis :=
  tickers.filterMap fun t =>
    if (hist t).length < 50 then none else (interp (hist t)).map (tagTicker t)

/-- Descending-confidence preorder used for the final sort. -/
def confGE (a b : TickerAnalysis) : Prop := b.confidence ≤ a.confidence

instance : DecidableRel confGE := fun a b => by
  unfold confGE; infer_instance

instance : IsTotal TickerAnalysis confGE :=
  ⟨fun a b => (le_total b.confidence a.confidence).imp id id⟩

instance : IsTrans TickerAnalysis confGE :=
  ⟨fun _ _ _ h₁ h₂ => le_trans h₂ h₁⟩

/-- Modelled from the spec: the missing `analyze_tickers` — collect the
qualifying analyses and return them sorted by descending Confidence with a
stable sort. -/
def analyze_tickers (interp : List ℚ → Option TAPayload) (hist : String → List ℚ)
    (tickers : List String) : List TickerAnalysis :=
  List.insertionSort confGE (collectAnalyses interp hist tickers)

/-! ## DataFrame model

A pandas `DataFrame` is modelled as an ordered list of named columns of
cells; every real `DataFrame` is rectangular, captured by `Rect`.
`setCol` follows pandas column assignment: an existing column is replaced
in place, a new one is appended on the right.  Row filtering applies one
boolean mask positionally to every column. -/
inductive Val where
  | str : String → Val
  | num : ℚ → Val
  | na : Val
deriving DecidableEq, Repr

def getCol? (df : List (String × List Val)) (n : String) : Option (List Val) :=
  (df.find? fun c => c.1 == n).map Prod.snd

structure DF where
  cols : List (String × List Val)
deriving DecidableEq, Repr

def DF.col? (df : DF) (n : String) : Option (List Val) := getCol? df.cols n

def DF.colD (df : DF) (n : String) : List Val := (df.col? n).getD []

def hasCol (df : DF) (n : String) : Bool := (df.col? n).isSome

def setColAux (n : String) (vs : List Val) :
    List (String × List Val) → List (String × List Val)
  | [] => [(n, vs)]
  | c :: t => if c.1 == n then (n, vs) :: t else c :: setColAux n vs t

def setCol (df : DF) (n : String) (vs : List Val) : DF := ⟨setColAux n vs df.cols⟩

def applyMask (m : List Bool) (vs : List Val) : List Val :=
  (vs.zip m).filterMap fun p => if p.2 then some p.1 else none

def filterRows (df : DF) (m : List Bool) : DF :=
  ⟨df.cols.map fun c => (c.1, applyMask m c.2)⟩

def numRows (df : DF) : ℕ :=
  match df.cols with
  | [] => 0
  | c :: _ => c.2.length

/-- Rectangularity: every column has the same number of cells. -/
def Rect (df : DF) : Prop := ∀ c ∈ df.cols, c.2.length = numRows df

instance (df : DF) : Decidable (Rect df) := by
  unfold Rect; infer_instance

/-! ### Python string primitives

`str.strip` / `str.upper` / substring search, modelled character by
character (ASCII letters, Python whitespace). -/
def pyWs (c : Char) : Bool :=
  c.toNat = 32 || c.toNat = 9 || c.toNat = 10 || c.toNat = 13 ||
    c.toNat = 11 || c.toNat = 12

def upChar (c : Char) : Char :=
  if 97 ≤ c.toNat ∧ c.toNat ≤ 122 then Char.ofNat (c.toNat - 32) else c

def upStr (s : String) : String := ⟨s.data.map upChar⟩

def trimChars (cs : List Char) : List Char :=
  (cs.rdropWhile pyWs).dropWhile pyWs

def trimStr (s : String) : String := ⟨trimChars s.data⟩

def leadsWith : List Char → List Char → Bool
  | [], _ => true
  | _ :: _, [] => false
  | a :: as, b :: bs => a == b && leadsWith as bs

def hasSub : List Char → List Char → Bool
  | [], pat => pat.isEmpty
  | s@(_ :: t), pat => leadsWith pat s || hasSub t pat

def strContains (s pat : String) : Bool := hasSub s.data pat.data

/-- `str(x)` for a cell, as pandas `astype(str)` renders it: strings
unchanged, NaN becomes the string `"nan"`, numbers their decimal text (the
exact float rendering is immaterial to every claim; digits never contain
the filtered substrings). -/
def valToStr : Val → String
  | .str s => s
  | .num q => toString q
  | .na => "nan"

/-- The regex `'Total|TOTAL|total|Summary|SUMMARY|summary'` of
`validate_portfolio_data`: substring containment of one of the six exact
variants (case-sensitive). -/
def isTotalRow (s : String) : Bool :=
  strContains s "Total" || strContains s "TOTAL" || strContains s "total" ||
    strContains s "Summary" || strContains s "SUMMARY" || strContains s "summary"

/-- `pd.to_numeric(·, errors='coerce')` for one cell: numbers pass through,
parseable strings become numbers, everything else becomes NaN. -/
def parseDigits : List Char → Option ℕ
  | [] => none
  | cs => cs.foldl (fun acc c =>
      acc.bind fun n =>
        if 48 ≤ c.toNat ∧ c.toNat ≤ 57 then some (n * 10 + (c.toNat - 48))
        else none) (some 0)

def parseUnsigned (cs : List Char) : Option ℚ :=
  match cs.splitOn '.' with
  | [intPart] => (parseDigits intPart).map fun n => (n : ℚ)
  | [intPart, fracPart] =>
    (parseDigits intPart).bind fun n =>
      (parseDigits fracPart).map fun f =>
        (n : ℚ) + (f : ℚ) / ((10 : ℚ) ^ fracPart.length)
  | _ => none

def parseNum (s : String) : Option ℚ :=
  match s.data with
  | '-' :: rest => (parseUnsigned rest).map Neg.neg
  | cs => parseUnsigned cs

def toNumeric : Val → Val
  | .num q => .num q
  | .na => .na
  | .str s => match parseNum s with
    | some q => .num q
    | none => .na

/-! ## Portfolio Normalizer (`PortfolioAnalyzer.validate_portfolio_data`)

The nine successive transformations of `validate_portfolio_data`, in source
order.  Failures (`ValueError` for a missing symbol column, `KeyError` for
the unconditionally read `Invested value` / `Value` / `Result` columns,
`ZeroDivisionError` for `1.0/len(df)` on an empty frame) are `Except.error`. -/
def symbolAliases : List String :=
  ["symbol", "ticker", "Ticker", "SYMBOL", "Stock", "stock", "Slice"]

def sharesAliases : List String :=
  ["shares", "quantity", "Quantity", "SHARES", "Amount", "amount", "Owned quantity"]

def weightAliases : List String :=
  ["weight", "Weight", "WEIGHT", "Allocation", "allocation", "%"]

/-- Step 1: drop rows whose `Slice` cell contains one of the six exact
variants of total/summary. -/
def stage1 (df : DF) : DF :=
  match df.col? "Slice" with
  | some vs => filterRows df (vs.map fun v => !(isTotalRow (valToStr v)))
  | none => df

/-- Step 2: resolve the symbol column, else `ValueError`. -/
def stage2 (df : DF) : Except String DF :=
  if hasCol df "Symbol" then .ok df
  else
    match symbolAliases.find? (fun c => hasCol df c) with
    | some c => .ok (setCol df "Symbol" (df.colD c))
    | none => .error "ValueError: No symbol column found"

/-- Step 3: `df['Symbol'] = df['Symbol'].astype(str).str.strip().str.upper()`. -/
def cleanSym (v : Val) : Val := Val.str (upStr (trimStr (valToStr v)))

def stage3 (df : DF) : DF := setCol df "Symbol" ((df.colD "Symbol").map cleanSym)

/-- Step 4: copy `Name` to `Company Name` when only the former exists. -/
def stage4 (df : DF) : DF :=
  if hasCol df "Name" && !hasCol df "Company Name" then
    setCol df "Company Name" (df.colD "Name")
  else df

def numsOf (vs : List Val) : List ℚ :=
  vs.filterMap fun v => match v with | .num q => some q | _ => none

def maxQ? : List ℚ → Option ℚ
  | [] => none
  | q :: t => match maxQ? t with | none => some q | some m => some (max q m)

/-- `weights.notna().any() and weights.max() > 1`. -/
def needsRescale (ws : List Val) : Bool :=
  match maxQ? (numsOf ws) with
  | some m => decide (1 < m)
  | none => false

def div100 : Val → Val
  | .num q => .num (q / 100)
  | v => v

def rescaleWeights (ws : List Val) : List Val :=
  if needsRescale ws then ws.map div100 else ws

/-- Step 5: resolve Shares (aliases) else Weight (aliases, with the
percentage rescale) else equal weights `1.0/len(df)` — only when neither a
`Shares` nor a `Weight` column already exists. -/
def stage5 (df : DF) : Except String DF :=
  if !hasCol df "Shares" && !hasCol df "Weight" then
    match sharesAliases.find? (fun c => hasCol df c) with
    | some c => .ok (setCol df "Shares" ((df.colD c).map toNumeric))
    | none =>
      match weightAliases.find? (fun c => hasCol df c) with
      | some c => .ok (setCol df "Weight" (rescaleWeights ((df.colD c).map toNumeric)))
      | none =>
        if numRows df = 0 then .error "ZeroDivisionError: float division by zero"
        else .ok (setCol df "Weight"
            (List.replicate (numRows df) (Val.num (1 / (numRows df : ℚ)))))
  else .ok df

/-- Step 6: copy `Value` (numeric) to `Current Value` when only the former
exists. -/
def stage6 (df : DF) : DF :=
  if hasCol df "Value" && !hasCol df "Current Value" then
    setCol df "Current Value" ((df.colD "Value").map toNumeric)
  else df

/-- Step 7: the unconditional `Cost (£)` / `Value (£)` / `P&L (£)`
assignments, reading `Invested value`, `Value` and `Result`; a missing
source column is a `KeyError`. -/
def stage7 (df : DF) : Except String DF :=
  match df.col? "Invested value" with
  | none => .error "KeyError: Invested value"
  | some inv =>
    let d₁ := setCol df "Cost (£)" (inv.map toNumeric)
    match d₁.col? "Value" with
    | none => .error "KeyError: Value"
    | some vals =>
      let d₂ := setCol d₁ "Value (£)" (vals.map toNumeric)
      match d₂.col? "Result" with
      | none => .error "KeyError: Result"
      | some res => .ok (setCol d₂ "P&L (£)" (res.map toNumeric))

/-- Step 8: `dropna(subset=['Symbol'])`. -/
def stage8 (df : DF) : DF :=
  filterRows df ((df.colD "Symbol").map fun v => !(v == Val.na))

/-- Step 9: keep rows with `Symbol != ''`. -/
def stage9 (df : DF) : DF :=
  filterRows df ((df.colD "Symbol").map fun v => !(v == Val.str ""))

/-- `validate_portfolio_data` of `portfolio_analyzer.py`: the whole
normalization, with Python exceptions as `Except.error`. -/
def validate_portfolio_data (df : DF) : Except String DF :=
  (stage2 (stage1 df)).bind fun d₂ =>
    (stage5 (stage4 (stage3 d₂))).bind fun d₅ =>
      (stage7 (stage6 d₅)).map fun d₇ => stage9 (stage8 d₇)

instance {ε α : Type} [DecidableEq ε] [DecidableEq α] : DecidableEq (Except ε α) := fun
  | .ok a, .ok b => decidable_of_iff (a = b) (by simp)
  | .ok _, .error _ => isFalse (fun h => Except.noConfusion h)
  | .error _, .ok _ => isFalse (fun h => Except.noConfusion h)
  | .error e, .error f => decidable_of_iff (e = f) (by simp)

/-- The three mandatory passthrough columns read unconditionally at lines
74–76 of `portfolio_analyzer.py`. -/
def mandatoryCols : List String := ["Invested value", "Value", "Result"]

/-! ## PortfolioAnalyzer construction (`__init__`, lines 9–17)

`self.portfolio_df = portfolio_df.copy()` followed by
`self.validate_portfolio_data()`.  Python object references are modelled by
a store of DataFrames addressed by index: construction copies the caller's
frame *by value* into a fresh cell and the in-place normalization then
rewrites only that fresh cell.  The read-only methods
(`fetch_stock_data`, `get_portfolio_summary`, `get_portfolio_metrics`)
never assign `self.portfolio_df`, which `pa_read_op` models: they return a
value computed from the analyzer's cell and leave the store untouched. -/
abbrev Store : Type := List DF

def emptyDF : DF := ⟨[]⟩

/-- `PortfolioAnalyzer.__init__`: copy the caller's frame into a fresh cell,
then run the (mutating) validation on that cell only. -/
def pa_init (σ : Store) (caller : ℕ) : Except String (Store × ℕ) :=
  let copied := σ.getD caller emptyDF
  let self := σ.length
  match validate_portfolio_data copied with
  | .ok dfv => .ok ((σ ++ [copied]).set self dfv, self)
  | .error e => .error e

/-- Any read-only analyzer method: computes from the analyzer's frame and
returns the store unchanged. -/
def pa_read_op {α : Type} (f : DF → α) (σ : Store) (r : ℕ) : Store × α :=
  (σ, f (σ.getD r emptyDF))

def dfDemo : DF :=
  ⟨[("Symbol", [Val.str "AAPL"]), ("Shares", [Val.num 1]),
    ("Invested value", [Val.num 10]), ("Value", [Val.num 12]),
    ("Result", [Val.num 2])]⟩

def dfDemoOut : DF :=
  ⟨[("Symbol", [Val.str "AAPL"]), ("Shares", [Val.num 1]),
    ("Invested value", [Val.num 10]), ("Value", [Val.num 12]),
    ("Result", [Val.num 2]), ("Current Value", [Val.num 12]),
    ("Cost (£)", [Val.num 10]), ("Value (£)", [Val.num 12]),
    ("P&L (£)", [Val.num 2])]⟩

theorem emaGo_length (a e : ℚ) (l : List ℚ) : (emaGo a e l).length = l.length + 1 := by
  induction l generalizing e with
  | nil => rfl
  | cons p ps ih => simp [emaGo, ih]

theorem calculate_ema_length (prices : List ℚ) (period : ℕ) :
    (calculate_ema prices period).length = prices.length := by
  cases prices with
  | nil => rfl
  | cons p ps => simp [calculate_ema, emaGo_length]

theorem getD_zipWith_sub (l₁ l₂ : List ℚ) (t : ℕ) (h₁ : t < l₁.length)
    (h₂ : t < l₂.length) :
    (List.zipWith (· - ·) l₁ l₂).getD t 0 = l₁.getD t 0 - l₂.getD t 0 := by
  induction l₁ generalizing l₂ t with
  | nil => simp at h₁
  | cons a as ih =>
    cases l₂ with
    | nil => simp at h₂
    | cons b bs =>
      cases t with
      | zero => rfl
      | succ n =>
        simp only [List.zipWith_cons_cons, List.getD_cons_succ]
        exact ih bs n (by simpa using h₁) (by simpa using h₂)

/-- C1.  `calculate_macd(prices, 12, 26, 9)` returns `None` exactly when the
series is shorter than 26; otherwise it returns three aligned sequences of
equal, non-zero length (none of the leading entries is undefined, so none is
dropped) with, at every index `t`, `MACD[t] = ema(prices,12)[t] -
ema(prices,26)[t]`, `Signal = ema(MACD, 9)` and `Histogram[t] = MACD[t] -
Signal[t]`. -/
theorem macd_defaults_spec (prices : List ℚ) :
    (prices.length < 26 → calculate_macd prices 12 26 9 = none) ∧
    (26 ≤ prices.length →
      ∃ m s h, calculate_macd prices 12 26 9 = some (m, s, h) ∧
        m.length = prices.length ∧ s.length = prices.length ∧
        h.length = prices.length ∧ 0 < m.length ∧
        (∀ t, t < prices.length →
          m.getD t 0 = (calculate_ema prices 12).getD t 0 -
            (calculate_ema prices 26).getD t 0) ∧
        s = calculate_ema m 9 ∧
        (∀ t, t < prices.length → h.getD t 0 = m.getD t 0 - s.getD t 0)) := by
  constructor
  · intro hlt
    simp [calculate_macd, hlt]
  · intro hge
    have hnlt : ¬ prices.length < 26 := not_lt.mpr hge
    refine ⟨List.zipWith (· - ·) (calculate_ema prices 12) (calculate_ema prices 26),
      calculate_ema (List.zipWith (· - ·) (calculate_ema prices 12)
        (calculate_ema prices 26)) 9,
      List.zipWith (· - ·)
        (List.zipWith (· - ·) (calculate_ema prices 12) (calculate_ema prices 26))
        (calculate_ema (List.zipWith (· - ·) (calculate_ema prices 12)
          (calculate_ema prices 26)) 9),
      by simp [calculate_macd, hnlt], ?_, ?_, ?_, ?_, ?_, rfl, ?_⟩
    · simp [List.length_zipWith, calculate_ema_length]
    · simp [calculate_ema_length, List.length_zipWith]
    · simp [List.length_zipWith, calculate_ema_length]
    · simp only [List.length_zipWith, calculate_ema_length]
      omega
    · intro t ht
      exact getD_zipWith_sub _ _ t (by simp [calculate_ema_length]; omega)
        (by simp [calculate_ema_length]; omega)
    · intro t ht
      refine getD_zipWith_sub _ _ t ?_ ?_
      · simp [List.length_zipWith, calculate_ema_length]; omega
      · simp [calculate_ema_length, List.length_zipWith]; omega

theorem macd_defaults_spec_wit :
    (calculate_macd (List.replicate 26 (1 : ℚ)) 12 26 9).isSome = true := by
  obtain ⟨m, s, h, heq, -⟩ := (macd_defaults_spec (List.replicate 26 1)).2 (by simp)
  rw [heq]
  rfl

/-- C3.  The Outlook is a deterministic function of the integer score with
the claimed thresholds, and it is monotone: a higher score never maps to a
more bearish category. -/
theorem outlook_thresholds_monotone :
    (∀ s : ℤ, (3 ≤ s → outlook_of_score s = .strongBullish) ∧
      (1 ≤ s ∧ s < 3 → outlook_of_score s = .weakBullish) ∧
      (s ≤ -3 → outlook_of_score s = .strongBearish) ∧
      (-3 < s ∧ s ≤ -1 → outlook_of_score s = .weakBearish) ∧
      (-1 < s ∧ s < 1 → outlook_of_score s = .neutral)) ∧
    (∀ s₁ s₂ : ℤ, s₁ ≤ s₂ →
      bearishRank (outlook_of_score s₂) ≤ bearishRank (outlook_of_score s₁)) := by
  constructor
  · intro s
    refine ⟨fun h => ?_, fun h => ?_, fun h => ?_, fun h => ?_, fun h => ?_⟩ <;>
      · unfold outlook_of_score
        split_ifs <;> first | rfl | omega
  · intro s₁ s₂ hle
    unfold outlook_of_score
    split_ifs <;> simp [bearishRank] <;> omega

theorem outlook_thresholds_monotone_wit :
    bearishRank (outlook_of_score 4) ≤ bearishRank (outlook_of_score (-5)) ∧
    outlook_of_score 4 = .strongBullish :=
  ⟨outlook_thresholds_monotone.2 (-5) 4 (by decide),
   (outlook_thresholds_monotone.1 4).1 (by decide)⟩

/-- C9.  Daily Change (%) is the guarded percentage change: the formula when
`PreviousClose > 0` and `0` otherwise; in particular `PreviousClose = 0`
yields `0` and never a division by zero. -/
theorem daily_change_spec (cp pc : ℚ) :
    (pc > 0 → daily_change cp pc = (cp - pc) / pc * 100) ∧
    (¬ pc > 0 → daily_change cp pc = 0) ∧ daily_change cp 0 = 0 := by
  refine ⟨fun h => ?_, fun h => ?_, ?_⟩ <;> simp [daily_change, *]

theorem daily_change_spec_wit :
    daily_change 12 10 = 20 ∧ daily_change 7 0 = 0 := by
  constructor
  · rw [(daily_change_spec 12 10).1 (by norm_num)]; norm_num
  · exact (daily_change_spec 7 0).2.2

theorem filter_orderedInsert_conf (c : ℕ) (x : TickerAnalysis)
    (l : List TickerAnalysis) :
    (List.orderedInsert confGE x l).filter (fun a => a.confidence == c) =
      (if x.confidence = c then [x] else []) ++
        l.filter (fun a => a.confidence == c) := by
  induction l with
  | nil =>
    by_cases hx : x.confidence = c
    · simp [List.orderedInsert, List.filter_cons, hx]
    · simp [List.orderedInsert, List.filter_cons, hx]
  | cons y t ih =>
    by_cases hr : confGE x y
    · simp only [List.orderedInsert, if_pos hr]
      by_cases hx : x.confidence = c <;> simp_all [List.filter_cons]
    · simp only [List.orderedInsert, if_neg hr]
      rw [List.filter_cons, List.filter_cons, ih]
      by_cases hx : x.confidence = c
      · have hy : ¬ y.confidence = c := by
          intro hyc
          exact hr (le_of_eq (hyc.trans hx.symm) : confGE x y)
        simp [hx, hy]
      · simp [hx]

theorem filter_insertionSort_conf (c : ℕ) (l : List TickerAnalysis) :
    (List.insertionSort confGE l).filter (fun a => a.confidence == c) =
      l.filter (fun a => a.confidence == c) := by
  induction l with
  | nil => rfl
  | cons x t ih =>
    simp only [List.insertionSort]
    rw [filter_orderedInsert_conf, ih, List.filter_cons]
    by_cases hx : x.confidence = c <;> simp [hx]

/-- C4.  The ranker output is sorted by descending Confidence; it is a
permutation of the collected qualifying analyses; ties keep first-seen order
(for every confidence value the output lists exactly the collected analyses
of that confidence, in collection order); any ticker with no data or fewer
than 50 points contributes nothing; and if no ticker qualifies the result is
the empty list. -/
theorem analyze_tickers_spec (interp : List ℚ → Option TAPayload)
    (hist : String → List ℚ) (tickers : List String) :
    List.Sorted confGE (analyze_tickers interp hist tickers) ∧
    (analyze_tickers interp hist tickers).Perm
      (collectAnalyses interp hist tickers) ∧
    (∀ c : ℕ, (analyze_tickers interp hist tickers).filter
        (fun a => a.confidence == c) =
      (collectAnalyses interp hist tickers).filter (fun a => a.confidence == c)) ∧
    (∀ t, (hist t).length < 50 →
      ∀ a ∈ analyze_tickers interp hist tickers, a.ticker ≠ t) ∧
    ((∀ t ∈ tickers, (hist t).length < 50 ∨ interp (hist t) = none) →
      analyze_tickers interp hist tickers = []) := by
  refine ⟨List.sorted_insertionSort confGE _, List.perm_insertionSort confGE _,
    fun c => filter_insertionSort_conf c _, ?_, ?_⟩
  · intro t hshort a ha hticker
    have hmem : a ∈ collectAnalyses interp hist tickers :=
      (List.perm_insertionSort confGE _).mem_iff.mp ha
    obtain ⟨u, _, hu⟩ := List.mem_filterMap.mp hmem
    by_cases hlen : (hist u).length < 50
    · rw [if_pos hlen] at hu
      exact Option.noConfusion hu
    · rw [if_neg hlen] at hu
      obtain ⟨p, _, hp⟩ := Option.map_eq_some'.mp hu
      have : a.ticker = u := by rw [← hp]; rfl
      rw [hticker] at this
      exact hlen (this ▸ hshort)
  · intro hall
    have hnil : collectAnalyses interp hist tickers = [] := by
      refine List.filterMap_eq_nil_iff.mpr fun t ht => ?_
      rcases hall t ht with hshort | hnone
      · rw [if_pos hshort]
      · by_cases hlen : (hist t).length < 50
        · rw [if_pos hlen]
        · rw [if_neg hlen, hnone]; rfl
    rw [analyze_tickers, hnil]
    rfl

theorem analyze_tickers_spec_wit :
    analyze_tickers (fun _ => none) (fun _ => []) ["AAPL", "MSFT"] = [] :=
  (analyze_tickers_spec (fun _ => none) (fun _ => []) ["AAPL", "MSFT"]).2.2.2.2
    (by intro t _; exact Or.inl (by simp))

/-! ### Basic lemmas about the DataFrame operations -/
theorem getCol?_cons (c : String × List Val) (t : List (String × List Val))
    (n : String) :
    getCol? (c :: t) n = if c.1 = n then some c.2 else getCol? t n := by
  by_cases h : c.1 = n <;> simp [getCol?, List.find?_cons, h]

theorem getCol?_setColAux_self (l : List (String × List Val)) (n : String)
    (vs : List Val) : getCol? (setColAux n vs l) n = some vs := by
  induction l with
  | nil => simp [setColAux, getCol?_cons]
  | cons c t ih =>
    by_cases h : c.1 = n
    · simp [setColAux, h, getCol?_cons]
    · rw [setColAux, if_neg (by simpa using h : ¬ ((c.1 == n) = true)),
        getCol?_cons, if_neg h, ih]

theorem getCol?_setColAux_ne (l : List (String × List Val)) (n m : String)
    (vs : List Val) (h : m ≠ n) :
    getCol? (setColAux n vs l) m = getCol? l m := by
  induction l with
  | nil =>
    have hnm : ¬ ((n == m) = true) := by simpa using fun he => h he.symm
    simp [setColAux, getCol?, List.find?_cons, hnm]
  | cons c t ih =>
    by_cases hc : c.1 = n
    · rw [setColAux, if_pos (by simpa using hc), getCol?_cons, getCol?_cons,
        if_neg (fun he : (n : String) = m => h he.symm),
        if_neg (show ¬ c.1 = m from hc ▸ fun he => h he.symm)]
    · rw [setColAux, if_neg (by simpa using hc : ¬ ((c.1 == n) = true)),
        getCol?_cons, getCol?_cons, ih]

theorem setColAux_eq_self (l : List (String × List Val)) (n : String)
    (vs : List Val) (h : getCol? l n = some vs) : setColAux n vs l = l := by
  induction l with
  | nil => simp [getCol?] at h
  | cons c t ih =>
    obtain ⟨c₁, c₂⟩ := c
    rw [getCol?_cons] at h
    by_cases hc : c₁ = n
    · simp only [if_pos hc] at h
      have h₂ : c₂ = vs := Option.some_injective _ h
      simp [setColAux, hc, h₂]
    · simp only [if_neg hc] at h
      simp [setColAux, hc, ih h]

theorem col?_setCol_self (df : DF) (n : String) (vs : List Val) :
    (setCol df n vs).col? n = some vs :=
  getCol?_setColAux_self df.cols n vs

theorem col?_setCol_ne (df : DF) (n m : String) (vs : List Val) (h : m ≠ n) :
    (setCol df n vs).col? m = df.col? m :=
  getCol?_setColAux_ne df.cols n m vs h

theorem setCol_eq_self (df : DF) (n : String) (vs : List Val)
    (h : df.col? n = some vs) : setCol df n vs = df := by
  show (⟨setColAux n vs df.cols⟩ : DF) = df
  rw [setColAux_eq_self df.cols n vs h]

theorem hasCol_setCol (df : DF) (n m : String) (vs : List Val) :
    hasCol (setCol df n vs) m = (m == n || hasCol df m) := by
  by_cases h : m = n
  · subst h
    simp [hasCol, col?_setCol_self]
  · simp [hasCol, col?_setCol_ne df n m vs h, h]

theorem col?_filterRows (df : DF) (m : List Bool) (n : String) :
    (filterRows df m).col? n = (df.col? n).map (applyMask m) := by
  show getCol? (df.cols.map fun c => (c.1, applyMask m c.2)) n =
    (getCol? df.cols n).map (applyMask m)
  induction df.cols with
  | nil => simp [getCol?]
  | cons c t ih =>
    obtain ⟨c₁, c₂⟩ := c
    by_cases hc : c₁ = n
    · simp [getCol?_cons, hc]
    · simpa [getCol?_cons, hc] using ih

theorem hasCol_filterRows (df : DF) (m : List Bool) (n : String) :
    hasCol (filterRows df m) n = hasCol df n := by
  simp only [hasCol, col?_filterRows]
  cases df.col? n <;> rfl

theorem applyMask_map_comm (f : Val → Val) (m : List Bool) (vs : List Val) :
    applyMask m (vs.map f) = (applyMask m vs).map f := by
  induction vs generalizing m with
  | nil => simp [applyMask]
  | cons v t ih =>
    cases m with
    | nil => simp [applyMask]
    | cons b bs =>
      cases b <;> simp only [applyMask, List.map_cons, List.zip_cons_cons,
        List.filterMap_cons] <;>
        simpa [applyMask] using ih bs

theorem applyMask_self_pred (p : Val → Bool) (vs : List Val) :
    applyMask (vs.map p) vs = vs.filter p := by
  induction vs with
  | nil => rfl
  | cons v t ih =>
    cases hp : p v <;>
      simp only [applyMask, List.map_cons, List.zip_cons_cons, List.filterMap_cons,
        hp, List.filter_cons] <;>
      simpa [applyMask, hp] using ih

theorem applyMask_sublist (m : List Bool) (vs : List Val) :
    (applyMask m vs).Sublist vs := by
  induction vs generalizing m with
  | nil => simp [applyMask]
  | cons v t ih =>
    cases m with
    | nil => simp [applyMask]
    | cons b bs =>
      have ht : (applyMask bs t).Sublist t := ih bs
      cases b
      · exact List.Sublist.trans
          (by simp [applyMask, List.zip_cons_cons]) (ht.cons v)
      · exact List.Sublist.trans
          (by simp [applyMask, List.zip_cons_cons]) (ht.cons₂ v)

theorem mem_of_mem_applyMask {v : Val} {m : List Bool} {vs : List Val}
    (h : v ∈ applyMask m vs) : v ∈ vs :=
  (applyMask_sublist m vs).mem h

theorem applyMask_all_true (m : List Bool) (vs : List Val)
    (hm : ∀ b ∈ m, b = true) (hl : vs.length ≤ m.length) :
    applyMask m vs = vs := by
  induction vs generalizing m with
  | nil => simp [applyMask]
  | cons v t ih =>
    cases m with
    | nil => simp at hl
    | cons b bs =>
      have hb : b = true := hm b (List.mem_cons_self b bs)
      subst hb
      have := ih bs (fun x hx => hm x (List.mem_cons_of_mem _ hx)) (by simpa using hl)
      simpa [applyMask, List.zip_cons_cons] using this

theorem applyMask_length_eq (m : List Bool) (vs ws : List Val)
    (h : vs.length = ws.length) :
    (applyMask m vs).length = (applyMask m ws).length := by
  induction m generalizing vs ws with
  | nil => simp [applyMask]
  | cons b bs ih =>
    cases vs with
    | nil =>
      cases ws with
      | nil => rfl
      | cons w wt => simp at h
    | cons v vt =>
      cases ws with
      | nil => simp at h
      | cons w wt =>
        have ht : vt.length = wt.length := by simpa using h
        cases b <;> simpa [applyMask, List.zip_cons_cons] using ih vt wt ht

/-! ### Idempotence of the Python `strip`/`upper` pipeline -/
theorem toNat_ofNat_lt {n : ℕ} (h : n < 55296) : (Char.ofNat n).toNat = n := by
  rw [Char.ofNat, dif_pos (Or.inl h)]
  simp [Char.ofNatAux, Char.toNat, UInt32.toNat]

theorem upChar_eq_of_lower {c : Char} (h : 97 ≤ c.toNat ∧ c.toNat ≤ 122) :
    (upChar c).toNat = c.toNat - 32 := by
  rw [upChar, if_pos h, toNat_ofNat_lt (by omega)]

theorem upChar_idem (c : Char) : upChar (upChar c) = upChar c := by
  by_cases h : 97 ≤ c.toNat ∧ c.toNat ≤ 122
  · have hn : (Char.ofNat (c.toNat - 32)).toNat = c.toNat - 32 :=
      toNat_ofNat_lt (by omega)
    have hup : upChar c = Char.ofNat (c.toNat - 32) := by rw [upChar, if_pos h]
    rw [hup, upChar, if_neg (by rw [hn]; omega)]
  · have hup : upChar c = c := by rw [upChar, if_neg h]
    rw [hup, hup]

theorem pyWs_upChar (c : Char) : pyWs (upChar c) = pyWs c := by
  by_cases h : 97 ≤ c.toNat ∧ c.toNat ≤ 122
  · have ht : (upChar c).toNat = c.toNat - 32 := upChar_eq_of_lower h
    have h₁ : pyWs (upChar c) = false := by simp [pyWs, ht]; omega
    have h₂ : pyWs c = false := by simp [pyWs]; omega
    rw [h₁, h₂]
  · have hup : upChar c = c := by rw [upChar, if_neg h]
    rw [hup]

theorem pyWs_comp_upChar : pyWs ∘ upChar = pyWs :=
  funext fun c => pyWs_upChar c

theorem upChar_comp_upChar : upChar ∘ upChar = upChar :=
  funext fun c => upChar_idem c

theorem rdropWhile_map_upChar (cs : List Char) :
    List.rdropWhile pyWs (cs.map upChar) = (List.rdropWhile pyWs cs).map upChar := by
  rw [List.rdropWhile, List.rdropWhile, ← List.map_reverse, List.dropWhile_map,
    pyWs_comp_upChar, List.map_reverse]

theorem trimChars_map_upChar (cs : List Char) :
    trimChars (cs.map upChar) = (trimChars cs).map upChar := by
  rw [trimChars, trimChars, rdropWhile_map_upChar, List.dropWhile_map, pyWs_comp_upChar]

theorem trimChars_idem (cs : List Char) : trimChars (trimChars cs) = trimChars cs := by
  have hr : List.rdropWhile pyWs (trimChars cs) = trimChars cs := by
    rw [List.rdropWhile_eq_self_iff]
    intro hm
    have hsuf : trimChars cs <:+ List.rdropWhile pyWs cs := List.dropWhile_suffix pyWs
    rw [hsuf.getLast hm]
    exact List.rdropWhile_last_not pyWs cs (hsuf.ne_nil hm)
  show (List.rdropWhile pyWs (trimChars cs)).dropWhile pyWs = trimChars cs
  rw [hr, trimChars, List.dropWhile_idempotent]

theorem clean_idem (s : String) :
    upStr (trimStr (upStr (trimStr s))) = upStr (trimStr s) := by
  show (⟨((⟨trimChars (⟨(trimChars s.data).map upChar⟩ : String).data⟩ : String).data.map upChar : List Char)⟩ : String) = ⟨(trimChars s.data).map upChar⟩
  show (⟨(trimChars ((trimChars s.data).map upChar)).map upChar⟩ : String) = ⟨(trimChars s.data).map upChar⟩
  rw [trimChars_map_upChar, trimChars_idem, List.map_map, upChar_comp_upChar]

theorem cleanSym_idem (v : Val) : cleanSym (cleanSym v) = cleanSym v := by
  show Val.str (upStr (trimStr (upStr (trimStr (valToStr v))))) = _
  rw [clean_idem]
  rfl

/-! ### Rectangularity and row-count lemmas -/
theorem mem_setColAux {d : String × List Val} {n : String} {vs : List Val}
    {l : List (String × List Val)} (h : d ∈ setColAux n vs l) :
    d = (n, vs) ∨ d ∈ l := by
  induction l with
  | nil => simpa [setColAux] using h
  | cons c t ih =>
    by_cases hc : (c.1 == n) = true
    · rw [setColAux, if_pos hc] at h
      rcases List.mem_cons.mp h with h | h
      · exact Or.inl h
      · exact Or.inr (List.mem_cons_of_mem _ h)
    · rw [setColAux, if_neg hc] at h
      rcases List.mem_cons.mp h with h | h
      · exact Or.inr (h ▸ List.mem_cons_self c t)
      · rcases ih h with h | h
        · exact Or.inl h
        · exact Or.inr (List.mem_cons_of_mem _ h)

theorem cols_ne_nil_of_hasCol {df : DF} {n : String} (h : hasCol df n = true) :
    df.cols ≠ [] := by
  intro hnil
  rw [hasCol, DF.col?, getCol?, hnil] at h
  simp at h

theorem colD_length_of_rect {df : DF} {n : String} (hr : Rect df)
    (h : hasCol df n = true) : (df.colD n).length = numRows df := by
  rw [hasCol, Option.isSome_iff_exists] at h
  obtain ⟨vs, hvs⟩ := h
  rw [DF.colD, hvs, Option.getD_some]
  rw [DF.col?, getCol?] at hvs
  obtain ⟨p, hfind, hsnd⟩ := Option.map_eq_some'.mp hvs
  exact hsnd ▸ hr p (List.mem_of_find?_eq_some hfind)

theorem numRows_setCol {df : DF} {n : String} {vs : List Val}
    (hne : df.cols ≠ []) (hlen : vs.length = numRows df) :
    numRows (setCol df n vs) = numRows df := by
  obtain ⟨c, t, hct⟩ := List.exists_cons_of_ne_nil hne
  have hnum : numRows df = c.2.length := by unfold numRows; rw [hct]
  show numRows ⟨setColAux n vs df.cols⟩ = numRows df
  rw [hct]
  by_cases hc : (c.1 == n) = true
  · rw [setColAux, if_pos hc]
    exact hlen
  · rw [setColAux, if_neg hc]
    exact hnum.symm

theorem setCol_cols_ne_nil (df : DF) (n : String) (vs : List Val) :
    (setCol df n vs).cols ≠ [] := by
  show setColAux n vs df.cols ≠ []
  cases df.cols with
  | nil => simp [setColAux]
  | cons c t =>
    by_cases hc : (c.1 == n) = true
    · rw [setColAux, if_pos hc]; simp
    · rw [setColAux, if_neg hc]; simp

theorem rect_setCol {df : DF} {n : String} {vs : List Val} (hr : Rect df)
    (hne : df.cols ≠ []) (hlen : vs.length = numRows df) :
    Rect (setCol df n vs) := by
  intro d hd
  rw [numRows_setCol hne hlen]
  rcases mem_setColAux hd with h | h
  · rw [h]; exact hlen
  · exact hr d h

theorem numRows_filterRows_cons {df : DF} {m : List Bool} (hr : Rect df) :
    ∀ d ∈ (filterRows df m).cols, d.2.length = numRows (filterRows df m) := by
  intro d hd
  obtain ⟨c, hc, hdc⟩ := List.mem_map.mp hd
  cases hcols : df.cols with
  | nil => rw [hcols] at hc; simp at hc
  | cons c₀ t =>
    have hc₀ : c₀ ∈ df.cols := hcols ▸ List.mem_cons_self c₀ t
    have hnum : numRows (filterRows df m) = (applyMask m c₀.2).length := by
      show numRows ⟨df.cols.map fun c => (c.1, applyMask m c.2)⟩ = _
      rw [hcols]
      rfl
    rw [hnum, ← hdc]
    exact applyMask_length_eq m c.2 c₀.2 (by rw [hr c hc, hr c₀ hc₀])

theorem rect_filterRows {df : DF} (m : List Bool) (hr : Rect df) :
    Rect (filterRows df m) :=
  numRows_filterRows_cons hr

theorem filterRows_cols_ne_nil {df : DF} (m : List Bool) (hne : df.cols ≠ []) :
    (filterRows df m).cols ≠ [] := by
  show df.cols.map _ ≠ []
  simpa using hne

theorem filterRows_all_true {df : DF} {m : List Bool} (hr : Rect df)
    (hm : ∀ b ∈ m, b = true) (hl : numRows df ≤ m.length) :
    filterRows df m = df := by
  show (⟨df.cols.map fun c => (c.1, applyMask m c.2)⟩ : DF) = df
  have : df.cols.map (fun c => (c.1, applyMask m c.2)) = df.cols.map id := by
    refine List.map_congr_left fun c hc => ?_
    rw [applyMask_all_true m c.2 hm (by rw [hr c hc]; exact hl), id_eq, Prod.mk.eta]
  rw [this, List.map_id]

/-! ### Per-stage facts -/
theorem find?_congr_pred {α : Type} (l : List α) (p q : α → Bool)
    (h : ∀ a ∈ l, p a = q a) : l.find? p = l.find? q := by
  induction l with
  | nil => rfl
  | cons a t ih =>
    rw [List.find?_cons, List.find?_cons, h a (List.mem_cons_self a t)]
    cases q a
    · exact ih fun x hx => h x (List.mem_cons_of_mem a hx)
    · rfl

theorem stage1_hasCol (df : DF) (n : String) : hasCol (stage1 df) n = hasCol df n := by
  rw [stage1]
  cases df.col? "Slice"
  · rfl
  · exact hasCol_filterRows df _ n

theorem stage1_rect {df : DF} (hr : Rect df) : Rect (stage1 df) := by
  rw [stage1]
  cases df.col? "Slice"
  · exact hr
  · exact rect_filterRows _ hr

theorem stage1_cols_ne_nil {df : DF} (hne : df.cols ≠ []) : (stage1 df).cols ≠ [] := by
  rw [stage1]
  cases df.col? "Slice"
  · exact hne
  · exact filterRows_cols_ne_nil _ hne

theorem stage2_cases {df d : DF} (h : stage2 df = .ok d) :
    (hasCol df "Symbol" = true ∧ d = df) ∨
    (∃ c, symbolAliases.find? (fun c => hasCol df c) = some c ∧
      d = setCol df "Symbol" (df.colD c)) := by
  by_cases hs : hasCol df "Symbol" = true
  · rw [stage2, if_pos hs] at h
    exact Or.inl ⟨hs, (Except.ok.injEq _ _).mp h |>.symm⟩
  · rw [stage2, if_neg hs] at h
    cases hf : symbolAliases.find? (fun c => hasCol df c) with
    | none => rw [hf] at h; exact Except.noConfusion h
    | some c =>
      rw [hf] at h
      exact Or.inr ⟨c, rfl, ((Except.ok.injEq _ _).mp h).symm⟩

theorem stage2_ok {df : DF}
    (hsym : hasCol df "Symbol" = true ∨
      (symbolAliases.any fun c => hasCol df c) = true) :
    ∃ d, stage2 df = .ok d := by
  by_cases hs : hasCol df "Symbol" = true
  · exact ⟨df, by rw [stage2, if_pos hs]⟩
  · rcases hsym with h | h
    · exact absurd h hs
    · obtain ⟨c, hc, hpc⟩ := List.any_eq_true.mp h
      have : (symbolAliases.find? fun c => hasCol df c).isSome :=
        List.find?_isSome.mpr ⟨c, hc, hpc⟩
      obtain ⟨c', hc'⟩ := Option.isSome_iff_exists.mp this
      exact ⟨_, by rw [stage2, if_neg hs, hc']⟩

theorem stage2_facts {df d : DF} (hr : Rect df) (h : stage2 df = .ok d) :
    hasCol d "Symbol" = true ∧
    (∀ n, ¬ n = "Symbol" → d.col? n = df.col? n) ∧
    Rect d ∧ numRows d = numRows df ∧ d.cols ≠ [] := by
  rcases stage2_cases h with ⟨hs, rfl⟩ | ⟨c, hc, rfl⟩
  · exact ⟨hs, fun n _ => rfl, hr, rfl, cols_ne_nil_of_hasCol hs⟩
  · have hpc : hasCol df c = true := List.find?_some hc
    have hne : df.cols ≠ [] := cols_ne_nil_of_hasCol hpc
    have hlen : (df.colD c).length = numRows df := colD_length_of_rect hr hpc
    refine ⟨?_, ?_, ?_, ?_, ?_⟩
    · rw [hasCol_setCol]; rfl
    · intro n hn
      exact col?_setCol_ne df "Symbol" n _ hn
    · exact rect_setCol hr hne hlen
    · exact numRows_setCol hne hlen
    · exact setCol_cols_ne_nil df _ _

theorem stage3_facts {df : DF} (hr : Rect df) (hsym : hasCol df "Symbol" = true) :
    (stage3 df).colD "Symbol" = (df.colD "Symbol").map cleanSym ∧
    (∀ n, ¬ n = "Symbol" → (stage3 df).col? n = df.col? n) ∧
    (∀ n, hasCol (stage3 df) n = hasCol df n ∨
      (n = "Symbol" ∧ hasCol (stage3 df) n = true)) ∧
    Rect (stage3 df) ∧ numRows (stage3 df) = numRows df ∧ (stage3 df).cols ≠ [] := by
  have hne : df.cols ≠ [] := cols_ne_nil_of_hasCol hsym
  have hlen : ((df.colD "Symbol").map cleanSym).length = numRows df := by
    rw [List.length_map]
    exact colD_length_of_rect hr hsym
  refine ⟨?_, ?_, ?_, ?_, ?_, ?_⟩
  · rw [stage3, DF.colD, col?_setCol_self]
    rfl
  · intro n hn
    exact col?_setCol_ne df "Symbol" n _ hn
  · intro n
    by_cases hn : n = "Symbol"
    · subst hn
      refine Or.inr ⟨rfl, ?_⟩
      rw [stage3, hasCol_setCol]
      rfl
    · refine Or.inl ?_
      rw [stage3, hasCol_setCol]
      simp [hn]
  · exact rect_setCol hr hne hlen
  · exact numRows_setCol hne hlen
  · exact setCol_cols_ne_nil df _ _

theorem stage4_facts {df : DF} (hr : Rect df) (hne : df.cols ≠ []) :
    (∀ n, ¬ n = "Company Name" → (stage4 df).col? n = df.col? n) ∧
    (hasCol df "Name" = true → hasCol (stage4 df) "Company Name" = true) ∧
    (∀ n, hasCol df n = true → hasCol (stage4 df) n = true) ∧
    Rect (stage4 df) ∧ numRows (stage4 df) = numRows df ∧ (stage4 df).cols ≠ [] := by
  rw [stage4]
  by_cases hc : (hasCol df "Name" && !hasCol df "Company Name") = true
  · rw [if_pos hc]
    have hname : hasCol df "Name" = true := (Bool.and_eq_true _ _ |>.mp hc).1
    have hlen : (df.colD "Name").length = numRows df := colD_length_of_rect hr hname
    refine ⟨fun n hn => col?_setCol_ne df _ n _ hn, fun _ => ?_, fun n hn => ?_, 
      rect_setCol hr hne hlen, numRows_setCol hne hlen, setCol_cols_ne_nil df _ _⟩
    · rw [hasCol_setCol]; rfl
    · rw [hasCol_setCol, hn, Bool.or_true]
  · rw [if_neg hc]
    exact ⟨fun n _ => rfl, fun hname => by
        simp only [Bool.and_eq_true, Bool.not_eq_true'] at hc
        rcases Decidable.not_and_iff_or_not.mp hc with h | h
        · exact absurd hname h
        · exact Bool.not_eq_false _ |>.mp (by simpa using h),
      fun n hn => hn, hr, rfl, hne⟩

theorem stage6_facts {df : DF} (hr : Rect df) (hne : df.cols ≠ []) :
    (∀ n, ¬ n = "Current Value" → (stage6 df).col? n = df.col? n) ∧
    (hasCol df "Value" = true → hasCol (stage6 df) "Current Value" = true) ∧
    (∀ n, hasCol df n = true → hasCol (stage6 df) n = true) ∧
    Rect (stage6 df) ∧ numRows (stage6 df) = numRows df ∧ (stage6 df).cols ≠ [] := by
  rw [stage6]
  by_cases hc : (hasCol df "Value" && !hasCol df "Current Value") = true
  · rw [if_pos hc]
    have hval : hasCol df "Value" = true := (Bool.and_eq_true _ _ |>.mp hc).1
    have hlen : ((df.colD "Value").map toNumeric).length = numRows df := by
      rw [List.length_map]
      exact colD_length_of_rect hr hval
    refine ⟨fun n hn => col?_setCol_ne df _ n _ hn, fun _ => ?_, fun n hn => ?_,
      rect_setCol hr hne hlen, numRows_setCol hne hlen, setCol_cols_ne_nil df _ _⟩
    · rw [hasCol_setCol]; rfl
    · rw [hasCol_setCol, hn, Bool.or_true]
  · rw [if_neg hc]
    refine ⟨fun n _ => rfl, fun hval => ?_, fun n hn => hn, hr, rfl, hne⟩
    simp only [Bool.and_eq_true, Bool.not_eq_true'] at hc
    rcases Decidable.not_and_iff_or_not.mp hc with h | h
    · exact absurd hval h
    · exact Bool.not_eq_false _ |>.mp (by simpa using h)

theorem rescaleWeights_length (ws : List Val) :
    (rescaleWeights ws).length = ws.length := by
  rw [rescaleWeights]
  split <;> simp

theorem stage5_cases {df d : DF} (h : stage5 df = .ok d) :
    ((hasCol df "Shares" = true ∨ hasCol df "Weight" = true) ∧ d = df) ∨
    (∃ c, sharesAliases.find? (fun c => hasCol df c) = some c ∧
      d = setCol df "Shares" ((df.colD c).map toNumeric)) ∨
    (sharesAliases.find? (fun c => hasCol df c) = none ∧
      ∃ c, weightAliases.find? (fun c => hasCol df c) = some c ∧
      d = setCol df "Weight" (rescaleWeights ((df.colD c).map toNumeric))) ∨
    (sharesAliases.find? (fun c => hasCol df c) = none ∧
      weightAliases.find? (fun c => hasCol df c) = none ∧ numRows df ≠ 0 ∧
      d = setCol df "Weight" (List.replicate (numRows df)
        (Val.num (1 / (numRows df : ℚ))))) := by
  by_cases hc : (!hasCol df "Shares" && !hasCol df "Weight") = true
  · rw [stage5, if_pos hc] at h
    cases hfs : sharesAliases.find? (fun c => hasCol df c) with
    | some c =>
      rw [hfs] at h
      exact Or.inr (Or.inl ⟨c, rfl, ((Except.ok.injEq _ _).mp h).symm⟩)
    | none =>
      rw [hfs] at h
      cases hfw : weightAliases.find? (fun c => hasCol df c) with
      | some c =>
        rw [hfw] at h
        exact Or.inr (Or.inr (Or.inl
          ⟨rfl, c, rfl, ((Except.ok.injEq _ _).mp h).symm⟩))
      | none =>
        rw [hfw] at h
        by_cases hn : numRows df = 0
        · rw [if_pos hn] at h
          exact Except.noConfusion h
        · rw [if_neg hn] at h
          exact Or.inr (Or.inr (Or.inr
            ⟨rfl, rfl, hn, ((Except.ok.injEq _ _).mp h).symm⟩))
  · rw [stage5, if_neg hc] at h
    simp only [Bool.and_eq_true, Bool.not_eq_true'] at hc
    have : hasCol df "Shares" = true ∨ hasCol df "Weight" = true := by
      rcases Decidable.not_and_iff_or_not.mp hc with h' | h'
      · exact Or.inl (Bool.not_eq_false _ |>.mp (by simpa using h'))
      · exact Or.inr (Bool.not_eq_false _ |>.mp (by simpa using h'))
    exact Or.inl ⟨this, ((Except.ok.injEq _ _).mp h).symm⟩

theorem stage5_facts {df d : DF} (hr : Rect df) (hne : df.cols ≠ [])
    (h : stage5 df = .ok d) :
    (hasCol d "Shares" = true ∨ hasCol d "Weight" = true) ∧
    (∀ n, ¬ n = "Shares" → ¬ n = "Weight" → d.col? n = df.col? n) ∧
    Rect d ∧ numRows d = numRows df ∧ d.cols ≠ [] := by
  rcases stage5_cases h with ⟨hsw, rfl⟩ | ⟨c, hc, rfl⟩ | ⟨-, c, hc, rfl⟩ | ⟨-, -, hn, rfl⟩
  · exact ⟨hsw, fun n _ _ => rfl, hr, rfl, hne⟩
  · have hpc : hasCol df c = true := List.find?_some hc
    have hlen : (((df.colD c)).map toNumeric).length = numRows df := by
      rw [List.length_map]; exact colD_length_of_rect hr hpc
    refine ⟨Or.inl (by rw [hasCol_setCol]; rfl),
      fun n hn _ => col?_setCol_ne df _ n _ hn,
      rect_setCol hr hne hlen, numRows_setCol hne hlen, setCol_cols_ne_nil df _ _⟩
  · have hpc : hasCol df c = true := List.find?_some hc
    have hlen : (rescaleWeights ((df.colD c).map toNumeric)).length = numRows df := by
      rw [rescaleWeights_length, List.length_map]
      exact colD_length_of_rect hr hpc
    refine ⟨Or.inr (by rw [hasCol_setCol]; rfl),
      fun n _ hn => col?_setCol_ne df _ n _ hn,
      rect_setCol hr hne hlen, numRows_setCol hne hlen, setCol_cols_ne_nil df _ _⟩
  · have hlen : (List.replicate (numRows df)
        (Val.num (1 / (numRows df : ℚ)))).length = numRows df := by
      rw [List.length_replicate]
    refine ⟨Or.inr (by rw [hasCol_setCol]; rfl),
      fun n _ hn => col?_setCol_ne df _ n _ hn,
      rect_setCol hr hne hlen, numRows_setCol hne hlen, setCol_cols_ne_nil df _ _⟩

theorem stage7_cases {df d : DF} (h : stage7 df = .ok d) :
    ∃ inv vals res, df.col? "Invested value" = some inv ∧
      df.col? "Value" = some vals ∧ df.col? "Result" = some res ∧
      d = setCol (setCol (setCol df "Cost (£)" (inv.map toNumeric))
        "Value (£)" (vals.map toNumeric)) "P&L (£)" (res.map toNumeric) := by
  cases hinv : df.col? "Invested value" with
  | none => rw [stage7, hinv] at h; exact Except.noConfusion h
  | some inv =>
    rw [stage7, hinv] at h
    dsimp only at h
    have hv : (setCol df "Cost (£)" (inv.map toNumeric)).col? "Value" =
        df.col? "Value" := col?_setCol_ne df _ _ _ (by decide)
    cases hval : df.col? "Value" with
    | none => rw [hv, hval] at h; exact Except.noConfusion h
    | some vals =>
      rw [hv, hval] at h
      dsimp only at h
      have hres2 : (setCol (setCol df "Cost (£)" (inv.map toNumeric)) "Value (£)"
          (vals.map toNumeric)).col? "Result" =
          df.col? "Result" := by
        rw [col?_setCol_ne _ _ _ _ (by decide), col?_setCol_ne _ _ _ _ (by decide)]
      cases hres : df.col? "Result" with
      | none => rw [hres2, hres] at h; exact Except.noConfusion h
      | some res =>
        rw [hres2, hres] at h
        exact ⟨inv, vals, res, rfl, rfl, rfl, ((Except.ok.injEq _ _).mp h).symm⟩

theorem stage7_facts {df d : DF} (hr : Rect df) (hne : df.cols ≠ [])
    (h : stage7 df = .ok d) :
    (∀ n, ¬ n = "Cost (£)" → ¬ n = "Value (£)" → ¬ n = "P&L (£)" →
      d.col? n = df.col? n) ∧
    Rect d ∧ numRows d = numRows df ∧ d.cols ≠ [] := by
  obtain ⟨inv, vals, res, hinv, hval, hres, rfl⟩ := stage7_cases h
  have hinvlen : (inv.map toNumeric).length = numRows df := by
    rw [List.length_map]
    have : hasCol df "Invested value" = true := by rw [hasCol, hinv]; rfl
    have := colD_length_of_rect hr this
    rwa [DF.colD, hinv, Option.getD_some] at this
  have hvallen : (vals.map toNumeric).length = numRows df := by
    rw [List.length_map]
    have : hasCol df "Value" = true := by rw [hasCol, hval]; rfl
    have := colD_length_of_rect hr this
    rwa [DF.colD, hval, Option.getD_some] at this
  have hreslen : (res.map toNumeric).length = numRows df := by
    rw [List.length_map]
    have : hasCol df "Result" = true := by rw [hasCol, hres]; rfl
    have := colD_length_of_rect hr this
    rwa [DF.colD, hres, Option.getD_some] at this
  have h₁r : Rect (setCol df "Cost (£)" (inv.map toNumeric)) :=
    rect_setCol hr hne hinvlen
  have h₁n : numRows (setCol df "Cost (£)" (inv.map toNumeric)) = numRows df :=
    numRows_setCol hne hinvlen
  have h₁ne := setCol_cols_ne_nil df "Cost (£)" (inv.map toNumeric)
  have h₂r : Rect (setCol (setCol df "Cost (£)" (inv.map toNumeric)) "Value (£)"
      (vals.map toNumeric)) := rect_setCol h₁r h₁ne (by rw [h₁n]; exact hvallen)
  have h₂n := @numRows_setCol _ "Value (£)" _ h₁ne (by rw [h₁n]; exact hvallen)
  have h₂ne := setCol_cols_ne_nil (setCol df "Cost (£)" (inv.map toNumeric))
    "Value (£)" (vals.map toNumeric)
  refine ⟨?_, ?_, ?_, ?_⟩
  · intro n h₁ h₂ h₃
    rw [col?_setCol_ne _ _ _ _ h₃, col?_setCol_ne _ _ _ _ h₂, col?_setCol_ne _ _ _ _ h₁]
  · exact rect_setCol h₂r h₂ne (by rw [h₂n, h₁n]; exact hreslen)
  · rw [numRows_setCol h₂ne (by rw [h₂n, h₁n]; exact hreslen), h₂n, h₁n]
  · exact setCol_cols_ne_nil _ _ _

theorem stage8_symbol (df : DF) :
    (stage8 df).colD "Symbol" =
      (df.colD "Symbol").filter (fun v => !(v == Val.na)) := by
  rw [stage8, DF.colD, col?_filterRows]
  cases h : df.col? "Symbol" with
  | none => rw [DF.colD, h]; rfl
  | some vs =>
    rw [DF.colD, h, Option.getD_some, Option.map_some', Option.getD_some,
      applyMask_self_pred]

theorem stage9_symbol (df : DF) :
    (stage9 df).colD "Symbol" =
      (df.colD "Symbol").filter (fun v => !(v == Val.str "")) := by
  rw [stage9, DF.colD, col?_filterRows]
  cases h : df.col? "Symbol" with
  | none => rw [DF.colD, h]; rfl
  | some vs =>
    rw [DF.colD, h, Option.getD_some, Option.map_some', Option.getD_some,
      applyMask_self_pred]

theorem hasCol_of_col?_eq {d df : DF} {n : String}
    (h : d.col? n = df.col? n) : hasCol d n = hasCol df n := by
  rw [hasCol, hasCol, h]

theorem validate_cases {df out : DF}
    (h : validate_portfolio_data df = .ok out) :
    ∃ d₂ d₅ d₇, stage2 (stage1 df) = .ok d₂ ∧
      stage5 (stage4 (stage3 d₂)) = .ok d₅ ∧
      stage7 (stage6 d₅) = .ok d₇ ∧ out = stage9 (stage8 d₇) := by
  rw [validate_portfolio_data] at h
  cases h₂ : stage2 (stage1 df) with
  | error e => rw [h₂] at h; exact Except.noConfusion h
  | ok d₂ =>
    rw [h₂] at h
    dsimp only [Except.bind] at h
    cases h₅ : stage5 (stage4 (stage3 d₂)) with
    | error e => rw [h₅] at h; exact Except.noConfusion h
    | ok d₅ =>
      rw [h₅] at h
      dsimp only [Except.bind] at h
      cases h₇ : stage7 (stage6 d₅) with
      | error e => rw [h₇] at h; exact Except.noConfusion h
      | ok d₇ =>
        rw [h₇] at h
        dsimp only [Except.map] at h
        exact ⟨d₂, d₅, d₇, rfl, h₅, h₇, ((Except.ok.injEq _ _).mp h).symm⟩

theorem stage5_ok {df : DF}
    (h : hasCol df "Shares" = true ∨ hasCol df "Weight" = true ∨ numRows df ≠ 0) :
    ∃ d, stage5 df = .ok d := by
  by_cases hc : (!hasCol df "Shares" && !hasCol df "Weight") = true
  · rw [stage5, if_pos hc]
    cases sharesAliases.find? (fun c => hasCol df c) with
    | some c => exact ⟨_, rfl⟩
    | none =>
      cases weightAliases.find? (fun c => hasCol df c) with
      | some c => exact ⟨_, rfl⟩
      | none =>
        simp only [Bool.and_eq_true, Bool.not_eq_true'] at hc
        have hn : numRows df ≠ 0 := by
          rcases h with h | h | h
          · rw [h] at hc; exact absurd hc.1 (by simp)
          · rw [h] at hc; exact absurd hc.2 (by simp)
          · exact h
        rw [if_neg hn]
        exact ⟨_, rfl⟩
  · rw [stage5, if_neg hc]
    exact ⟨df, rfl⟩

theorem stage7_ok {df : DF} (hinv : hasCol df "Invested value" = true)
    (hval : hasCol df "Value" = true) (hres : hasCol df "Result" = true) :
    ∃ d, stage7 df = .ok d := by
  obtain ⟨inv, hinv'⟩ := Option.isSome_iff_exists.mp hinv
  obtain ⟨vals, hval'⟩ := Option.isSome_iff_exists.mp hval
  obtain ⟨res, hres'⟩ := Option.isSome_iff_exists.mp hres
  rw [stage7, hinv']
  dsimp only
  rw [col?_setCol_ne df _ _ _ (by decide), hval']
  dsimp only
  rw [col?_setCol_ne _ _ _ _ (by decide), col?_setCol_ne _ _ _ _ (by decide), hres']
  exact ⟨_, rfl⟩

/-- C2, counterexample.  A table with a recognizable `Symbol` column and a
`Shares` column but no cost/value columns makes `validate_portfolio_data`
raise `KeyError: 'Invested value'` — the optional cost/value columns are not
optional in the code. -/
theorem normalizer_missing_cost_cols_cex :
    validate_portfolio_data
      ⟨[("Symbol", [Val.str "AAPL"]), ("Shares", [Val.num 1])]⟩ =
      .error "KeyError: Invested value" := by
  decide

/-- C2, amended.  Normalization succeeds for every rectangular table with a
recognizable symbol column, *provided* the `Invested value`, `Value` and
`Result` columns are also present (they are read unconditionally, so their
absence raises `KeyError`) and the equal-weight fallback denominator is not
zero; all genuinely optional columns (`Name`, `Current Value`,
shares/weight aliases) may be freely absent. -/
theorem normalizer_graceful_amended (df : DF) (hr : Rect df)
    (hsym : hasCol df "Symbol" = true ∨
      (symbolAliases.any fun c => hasCol df c) = true)
    (hmand : ∀ n ∈ mandatoryCols, hasCol df n = true)
    (hq : hasCol df "Shares" = true ∨ hasCol df "Weight" = true ∨
      numRows (stage1 df) ≠ 0) :
    ∃ out, validate_portfolio_data df = .ok out := by
  have hinv := hmand "Invested value" (by decide)
  have hval := hmand "Value" (by decide)
  have hres := hmand "Result" (by decide)
  -- stage 1
  have h1r : Rect (stage1 df) := stage1_rect hr
  have h1has : ∀ n, hasCol (stage1 df) n = hasCol df n := stage1_hasCol df
  -- stage 2
  obtain ⟨d₂, h₂⟩ := @stage2_ok (stage1 df) (by
    rcases hsym with h | h
    · exact Or.inl (by rw [h1has]; exact h)
    · refine Or.inr ?_
      obtain ⟨c, hc, hpc⟩ := List.any_eq_true.mp h
      exact List.any_eq_true.mpr ⟨c, hc, by rw [h1has]; exact hpc⟩)
  obtain ⟨h₂sym, h₂pres, h₂r, h₂num, h₂ne⟩ := stage2_facts h1r h₂
  -- stage 3
  obtain ⟨h₃sym, h₃pres, h₃has, h₃r, h₃num, h₃ne⟩ := stage3_facts h₂r h₂sym
  -- stage 4
  obtain ⟨h₄pres, h₄cn, h₄has, h₄r, h₄num, h₄ne⟩ := stage4_facts h₃r h₃ne
  -- stage 5
  have hpres234 : ∀ n, ¬ n = "Symbol" → ¬ n = "Company Name" →
      (stage4 (stage3 d₂)).col? n = (stage1 df).col? n := by
    intro n hn₁ hn₂
    rw [h₄pres n hn₂, h₃pres n hn₁, h₂pres n hn₁]
  obtain ⟨d₅, h₅⟩ := @stage5_ok (stage4 (stage3 d₂)) (by
    rcases hq with h | h | h
    · refine Or.inl ?_
      rw [hasCol_of_col?_eq (hpres234 "Shares" (by decide) (by decide)), h1has]
      exact h
    · refine Or.inr (Or.inl ?_)
      rw [hasCol_of_col?_eq (hpres234 "Weight" (by decide) (by decide)), h1has]
      exact h
    · exact Or.inr (Or.inr (by rw [h₄num, h₃num, h₂num]; exact h)))
  obtain ⟨h₅sw, h₅pres, h₅r, h₅num, h₅ne⟩ := stage5_facts h₄r h₄ne h₅
  -- stage 6
  obtain ⟨h₆pres, h₆cv, h₆has, h₆r, h₆num, h₆ne⟩ := stage6_facts h₅r h₅ne
  -- stage 7
  have hmand₆ : ∀ n, ¬ n = "Symbol" → ¬ n = "Company Name" → ¬ n = "Shares" →
      ¬ n = "Weight" → ¬ n = "Current Value" →
      (stage6 d₅).col? n = (stage1 df).col? n := by
    intro n hn₁ hn₂ hn₃ hn₄ hn₅
    rw [h₆pres n hn₅, h₅pres n hn₃ hn₄, hpres234 n hn₁ hn₂]
  obtain ⟨d₇, h₇⟩ := @stage7_ok (stage6 d₅)
    (by rw [hasCol_of_col?_eq (hmand₆ "Invested value" (by decide) (by decide)
      (by decide) (by decide) (by decide)), h1has]; exact hinv)
    (by rw [hasCol_of_col?_eq (hmand₆ "Value" (by decide) (by decide)
      (by decide) (by decide) (by decide)), h1has]; exact hval)
    (by rw [hasCol_of_col?_eq (hmand₆ "Result" (by decide) (by decide)
      (by decide) (by decide) (by decide)), h1has]; exact hres)
  refine ⟨stage9 (stage8 d₇), ?_⟩
  rw [validate_portfolio_data, h₂]
  dsimp only [Except.bind]
  rw [h₅]
  dsimp only [Except.bind]
  rw [h₇]
  dsimp only [Except.map]

theorem normalizer_graceful_amended_wit :
    ∃ out, validate_portfolio_data
      ⟨[("Symbol", [Val.str "MSFT"]), ("Invested value", [Val.num 5]),
        ("Value", [Val.num 6]), ("Result", [Val.num 1])]⟩ = .ok out :=
  normalizer_graceful_amended _ (by decide) (Or.inl (by decide)) (by decide)
    (Or.inr (Or.inr (by decide)))

/-! ### Column preservation through the pipeline -/
theorem stage3_symbol (df : DF) :
    (stage3 df).colD "Symbol" = (df.colD "Symbol").map cleanSym := by
  rw [stage3, DF.colD, col?_setCol_self]
  rfl

theorem stage3_pres (df : DF) (n : String) (hn : ¬ n = "Symbol") :
    (stage3 df).col? n = df.col? n :=
  col?_setCol_ne df _ n _ hn

theorem stage4_pres (df : DF) (n : String) (hn : ¬ n = "Company Name") :
    (stage4 df).col? n = df.col? n := by
  rw [stage4]
  split
  · exact col?_setCol_ne df _ n _ hn
  · rfl

theorem stage5_pres {df d : DF} (h : stage5 df = .ok d) (n : String)
    (hn₁ : ¬ n = "Shares") (hn₂ : ¬ n = "Weight") : d.col? n = df.col? n := by
  rcases stage5_cases h with ⟨-, rfl⟩ | ⟨c, -, rfl⟩ | ⟨-, c, -, rfl⟩ | ⟨-, -, -, rfl⟩
  · rfl
  · exact col?_setCol_ne df _ n _ hn₁
  · exact col?_setCol_ne df _ n _ hn₂
  · exact col?_setCol_ne df _ n _ hn₂

theorem stage6_pres (df : DF) (n : String) (hn : ¬ n = "Current Value") :
    (stage6 df).col? n = df.col? n := by
  rw [stage6]
  split
  · exact col?_setCol_ne df _ n _ hn
  · rfl

theorem stage7_pres {df d : DF} (h : stage7 df = .ok d) (n : String)
    (hn₁ : ¬ n = "Cost (£)") (hn₂ : ¬ n = "Value (£)") (hn₃ : ¬ n = "P&L (£)") :
    d.col? n = df.col? n := by
  obtain ⟨inv, vals, res, -, -, -, rfl⟩ := stage7_cases h
  rw [col?_setCol_ne _ _ _ _ hn₃, col?_setCol_ne _ _ _ _ hn₂,
    col?_setCol_ne _ _ _ _ hn₁]

theorem stage1_slice (df : DF) :
    (stage1 df).col? "Slice" = (df.col? "Slice").map
      (fun vs => vs.filter fun v => !(isTotalRow (valToStr v))) := by
  rw [stage1]
  cases h : df.col? "Slice" with
  | none => rw [h]; rfl
  | some vs =>
    rw [col?_filterRows, h, Option.map_some', Option.map_some',
      applyMask_self_pred]

theorem mem_colD_filterRows {v : Val} {df : DF} {m : List Bool} {n : String}
    (h : v ∈ (filterRows df m).colD n) : v ∈ df.colD n := by
  rw [DF.colD, col?_filterRows] at h
  cases hc : df.col? n with
  | none => rw [hc] at h; simp at h
  | some vs =>
    rw [hc] at h
    rw [DF.colD, hc, Option.getD_some]
    exact mem_of_mem_applyMask (by simpa using h)

/-- The Symbol column of a successful normalization, traced back through the
pipeline: every entry is a cleaned symbol, is not the empty string and is
not NaN. -/
theorem out_symbol_facts {df out : DF}
    (h : validate_portfolio_data df = .ok out) :
    ∀ v ∈ out.colD "Symbol",
      (∃ w, v = cleanSym w) ∧ ¬ v = Val.str "" ∧ ¬ v = Val.na := by
  obtain ⟨d₂, d₅, d₇, h₂, h₅, h₇, rfl⟩ := validate_cases h
  intro v hv
  rw [stage9_symbol] at hv
  have hv9 := List.of_mem_filter hv
  have hv8' : v ∈ (stage8 d₇).colD "Symbol" := List.mem_of_mem_filter hv
  rw [stage8_symbol] at hv8'
  have hv8 := List.of_mem_filter hv8'
  have hv7 : v ∈ d₇.colD "Symbol" := List.mem_of_mem_filter hv8'
  have hchain : d₇.colD "Symbol" = (stage3 d₂).colD "Symbol" := by
    rw [DF.colD, DF.colD, stage7_pres h₇ _ (by decide) (by decide) (by decide),
      stage6_pres _ _ (by decide), stage5_pres h₅ _ (by decide) (by decide),
      stage4_pres _ _ (by decide)]
  rw [hchain, stage3_symbol] at hv7
  obtain ⟨w, -, hw⟩ := List.mem_map.mp hv7
  exact ⟨⟨w, hw.symm⟩, by simpa using hv9, by simpa using hv8⟩

/-- C6, counterexample.  A row whose `Symbol` cell is null is *not* dropped:
`astype(str)` renders NaN as `"nan"`, which `strip().upper()` turns into the
non-empty symbol `"NAN"`, so the later `dropna`/`!= ''` filters keep it. -/
theorem normalizer_null_symbol_cex :
    (validate_portfolio_data
      ⟨[("Symbol", [Val.na]), ("Shares", [Val.num 1]),
        ("Invested value", [Val.num 1]), ("Value", [Val.num 1]),
        ("Result", [Val.num 0])]⟩).toOption.map (fun o => o.colD "Symbol") =
      some [Val.str "NAN"] := by
  decide

/-- C6, amended.  After a successful normalization every remaining row has a
`Symbol` that is a non-empty string of the whitespace-trimmed, upper-cased
form, and every row whose symbol was the empty string (or whitespace only)
has been dropped; but a row whose symbol was null is converted to the
literal string `"NAN"` and retained, not dropped. -/
theorem normalizer_symbols_amended {df out : DF}
    (h : validate_portfolio_data df = .ok out) :
    ∀ v ∈ out.colD "Symbol", ∃ s, v = Val.str s ∧ s ≠ "" ∧
      s = upStr (trimStr s) := by
  intro v hv
  obtain ⟨⟨w, hw⟩, hne, -⟩ := out_symbol_facts h v hv
  refine ⟨upStr (trimStr (valToStr w)), hw, ?_, (clean_idem (valToStr w)).symm⟩
  intro hs
  exact hne (by rw [hw, cleanSym, hs])

theorem normalizer_symbols_amended_wit :
    ∃ s, Val.str "AAPL" = Val.str s ∧ s ≠ "" ∧ s = upStr (trimStr s) :=
  @normalizer_symbols_amended
    ⟨[("Symbol", [Val.str " aapl "]), ("Shares", [Val.num 1]),
      ("Invested value", [Val.num 1]), ("Value", [Val.num 1]),
      ("Result", [Val.num 0])]⟩
    ⟨[("Symbol", [Val.str "AAPL"]), ("Shares", [Val.num 1]),
      ("Invested value", [Val.num 1]), ("Value", [Val.num 1]),
      ("Result", [Val.num 0]), ("Current Value", [Val.num 1]),
      ("Cost (£)", [Val.num 1]), ("Value (£)", [Val.num 1]),
      ("P&L (£)", [Val.num 0])]⟩
    (by decide) (Val.str "AAPL") (by decide)

/-- C7, counterexample.  The filter regex is the case-sensitive alternation
`'Total|TOTAL|total|Summary|SUMMARY|summary'`; the mixed-case variant
`"tOtAl"` matches none of the six branches, so its row is *retained* (the
exact variant `"Total"` in the same table is dropped). -/
theorem normalizer_mixed_case_total_cex :
    (validate_portfolio_data
      ⟨[("Slice", [Val.str "tOtAl", Val.str "Total", Val.str "AAPL"]),
        ("Shares", [Val.num 1, Val.num 2, Val.num 3]),
        ("Invested value", [Val.num 1, Val.num 1, Val.num 1]),
        ("Value", [Val.num 1, Val.num 1, Val.num 1]),
        ("Result", [Val.num 0, Val.num 0, Val.num 0])]⟩).toOption.map
      (fun o => o.colD "Slice") =
      some [Val.str "tOtAl", Val.str "AAPL"] := by
  decide

/-- Every `Slice` entry of a successful normalization fails the six-variant
total/summary filter. -/
theorem out_slice_facts {df out : DF}
    (h : validate_portfolio_data df = .ok out) :
    ∀ v ∈ out.colD "Slice", isTotalRow (valToStr v) = false := by
  obtain ⟨d₂, d₅, d₇, h₂, h₅, h₇, rfl⟩ := validate_cases h
  intro v hv
  have hv8 : v ∈ (stage8 d₇).colD "Slice" := mem_colD_filterRows hv
  have hv7 : v ∈ d₇.colD "Slice" := mem_colD_filterRows hv8
  have hd₂ : d₂.col? "Slice" = (stage1 df).col? "Slice" := by
    rcases stage2_cases h₂ with ⟨-, rfl⟩ | ⟨c, -, rfl⟩
    · rfl
    · exact col?_setCol_ne _ _ _ _ (by decide)
  have hchain : d₇.col? "Slice" = (stage1 df).col? "Slice" := by
    rw [stage7_pres h₇ _ (by decide) (by decide) (by decide),
      stage6_pres _ _ (by decide), stage5_pres h₅ _ (by decide) (by decide),
      stage4_pres _ _ (by decide), stage3_pres _ _ (by decide), hd₂]
  rw [DF.colD, hchain, stage1_slice] at hv7
  cases hs : df.col? "Slice" with
  | none => rw [hs] at hv7; simp at hv7
  | some vs =>
    rw [hs, Option.map_some', Option.getD_some] at hv7
    have := List.of_mem_filter hv7
    simpa using this

/-- C7, amended.  Every row whose `Slice` label contains one of the six
exact variants `Total`, `TOTAL`, `total`, `Summary`, `SUMMARY`, `summary`
as a substring is excluded from the normalized output; other
case-mixtures of those words (e.g. `"tOtAl"`) are not excluded. -/
theorem normalizer_totals_amended {df out : DF}
    (h : validate_portfolio_data df = .ok out) :
    ∀ v ∈ out.colD "Slice", isTotalRow (valToStr v) = false :=
  out_slice_facts h

theorem normalizer_totals_amended_wit :
    isTotalRow (valToStr (Val.str "AAPL")) = false :=
  @normalizer_totals_amended
    ⟨[("Slice", [Val.str "Total", Val.str "AAPL"]),
      ("Shares", [Val.num 1, Val.num 2]),
      ("Invested value", [Val.num 1, Val.num 1]),
      ("Value", [Val.num 1, Val.num 1]),
      ("Result", [Val.num 0, Val.num 0])]⟩
    ⟨[("Slice", [Val.str "AAPL"]), ("Shares", [Val.num 2]),
      ("Invested value", [Val.num 1]), ("Value", [Val.num 1]),
      ("Result", [Val.num 0]), ("Symbol", [Val.str "AAPL"]),
      ("Current Value", [Val.num 1]), ("Cost (£)", [Val.num 1]),
      ("Value (£)", [Val.num 1]), ("P&L (£)", [Val.num 0])]⟩
    (by decide) (Val.str "AAPL") (by decide)

theorem colD_filterRows_sublist (df : DF) (m : List Bool) (n : String) :
    ((filterRows df m).colD n).Sublist (df.colD n) := by
  rw [DF.colD, DF.colD, col?_filterRows]
  cases h : df.col? n with
  | none => simp
  | some vs => simpa using applyMask_sublist m vs

/-- C8, counterexample.  A table with an exact `Weight` column holding `40`
(no `Shares` column) is *not* rescaled: the whole shares/weight resolution
block is skipped whenever a canonical `Shares` or `Weight` column exists, so
the 0–100-scale heuristic never runs and `40` stays `40`. -/
theorem normalizer_weight_rescale_cex :
    (validate_portfolio_data
      ⟨[("Symbol", [Val.str "A"]), ("Weight", [Val.num 40]),
        ("Invested value", [Val.num 1]), ("Value", [Val.num 1]),
        ("Result", [Val.num 0])]⟩).toOption.map (fun o => o.colD "Weight") =
      some [Val.num 40] := by
  decide

/-- C8, amended.  For every rectangular input with *no* `Shares` column, no
`Weight` column and no shares-alias column: if the first present
weight-alias column (`weight`, `WEIGHT`, `Allocation`, `allocation`, `%`)
parses with some numeric value and maximum above 1, the output weights are
those parsed values divided by 100 (restricted to the surviving rows);
without such a maximum they pass through unrescaled; and if no weight alias
exists either, every surviving row gets the equal weight `1/N`, where `N`
is the row count right after the totals filter (the empty-symbol drop
happens later).  A canonical `Weight` column, by contrast, is never
rescaled (see the counterexample). -/
theorem normalizer_weights_amended {df out : DF} (hr : Rect df)
    (h : validate_portfolio_data df = .ok out)
    (hs : hasCol df "Shares" = false) (hw : hasCol df "Weight" = false)
    (hsa : ∀ c ∈ sharesAliases, hasCol df c = false) :
    (∀ c, weightAliases.find? (fun c => hasCol df c) = some c →
      (needsRescale (((stage1 df).colD c).map toNumeric) = true →
        (out.colD "Weight").Sublist
          ((((stage1 df).colD c).map toNumeric).map div100)) ∧
      (needsRescale (((stage1 df).colD c).map toNumeric) = false →
        (out.colD "Weight").Sublist (((stage1 df).colD c).map toNumeric))) ∧
    (weightAliases.find? (fun c => hasCol df c) = none →
      numRows (stage1 df) ≠ 0 ∧
      ∀ v ∈ out.colD "Weight", v = Val.num (1 / (numRows (stage1 df) : ℚ))) := by
  obtain ⟨d₂, d₅, d₇, h₂, h₅, h₇, rfl⟩ := validate_cases h
  obtain ⟨h₂sym, h₂pres, h₂r, h₂num, h₂ne⟩ := stage2_facts (stage1_rect hr) h₂
  obtain ⟨h₃sym, h₃pres, h₃has, h₃r, h₃num, h₃ne⟩ := stage3_facts h₂r h₂sym
  obtain ⟨h₄pres, h₄cn, h₄has, h₄r, h₄num, h₄ne⟩ := stage4_facts h₃r h₃ne
  have hpres : ∀ n, ¬ n = "Symbol" → ¬ n = "Company Name" →
      (stage4 (stage3 d₂)).col? n = (stage1 df).col? n := by
    intro n hn₁ hn₂
    rw [h₄pres n hn₂, h₃pres n hn₁, h₂pres n hn₁]
  have hhas : ∀ n, ¬ n = "Symbol" → ¬ n = "Company Name" →
      hasCol (stage4 (stage3 d₂)) n = hasCol df n := by
    intro n hn₁ hn₂
    rw [hasCol_of_col?_eq (hpres n hn₁ hn₂), stage1_hasCol]
  have hwnames : ∀ a ∈ weightAliases, ¬ a = "Symbol" ∧ ¬ a = "Company Name" := by
    decide
  have hsnames : ∀ a ∈ sharesAliases, ¬ a = "Symbol" ∧ ¬ a = "Company Name" := by
    decide
  have hwfind : weightAliases.find? (fun c => hasCol (stage4 (stage3 d₂)) c) =
      weightAliases.find? (fun c => hasCol df c) :=
    find?_congr_pred _ _ _ fun a ha =>
      hhas a (hwnames a ha).1 (hwnames a ha).2
  have hsfind : sharesAliases.find? (fun c => hasCol (stage4 (stage3 d₂)) c) =
      none := by
    rw [List.find?_eq_none]
    intro a ha
    rw [hhas a (hsnames a ha).1 (hsnames a ha).2, hsa a ha]
    exact Bool.false_ne_true
  have hsub : ((stage9 (stage8 d₇)).colD "Weight").Sublist (d₇.colD "Weight") :=
    (colD_filterRows_sublist _ _ _).trans (colD_filterRows_sublist _ _ _)
  have hd₇w : d₇.col? "Weight" = d₅.col? "Weight" := by
    rw [stage7_pres h₇ _ (by decide) (by decide) (by decide),
      stage6_pres _ _ (by decide)]
  rcases stage5_cases h₅ with ⟨hsw, -⟩ | ⟨c', hc', -⟩ | ⟨-, c'', hfw', heq₅⟩ |
    ⟨-, hfw', hn, heq₅⟩
  · exfalso
    rcases hsw with h' | h'
    · rw [hhas _ (by decide) (by decide), hs] at h'
      exact Bool.false_ne_true h'
    · rw [hhas _ (by decide) (by decide), hw] at h'
      exact Bool.false_ne_true h'
  · exfalso
    rw [hsfind] at hc'
    exact Option.noConfusion hc'
  · have hcmem : c'' ∈ weightAliases := List.mem_of_find?_eq_some hfw'
    rw [hwfind] at hfw'
    constructor
    · intro c hc
      rw [hfw'] at hc
      have hcc : c'' = c := Option.some_injective _ hc
      subst hcc
      have hcol : (stage4 (stage3 d₂)).colD c'' = (stage1 df).colD c'' := by
        rw [DF.colD, DF.colD, hpres c'' (hwnames c'' hcmem).1 (hwnames c'' hcmem).2]
      have hd₅w : d₅.col? "Weight" =
          some (rescaleWeights (((stage1 df).colD c'').map toNumeric)) := by
        rw [heq₅, col?_setCol_self, hcol]
      have hout : (d₇.colD "Weight") =
          rescaleWeights (((stage1 df).colD c'').map toNumeric) := by
        rw [DF.colD, hd₇w, hd₅w, Option.getD_some]
      constructor
      · intro hneed
        rw [hout, rescaleWeights, if_pos hneed] at hsub
        exact hsub
      · intro hneed
        rw [hout, rescaleWeights, if_neg (by rw [hneed]; exact Bool.false_ne_true)]
          at hsub
        exact hsub
    · intro hc
      rw [hfw'] at hc
      exact absurd hc (Option.noConfusion)
  · rw [hwfind] at hfw'
    have hnum : numRows (stage4 (stage3 d₂)) = numRows (stage1 df) := by
      rw [h₄num, h₃num, h₂num]
    constructor
    · intro c hc
      rw [hfw'] at hc
      exact absurd hc.symm (Option.noConfusion)
    · intro _
      refine ⟨by rw [← hnum]; exact hn, ?_⟩
      intro v hv
      have hd₅w : d₅.col? "Weight" =
          some (List.replicate (numRows (stage4 (stage3 d₂)))
            (Val.num (1 / (numRows (stage4 (stage3 d₂)) : ℚ)))) := by
        rw [heq₅, col?_setCol_self]
      have hout : d₇.colD "Weight" =
          List.replicate (numRows (stage4 (stage3 d₂)))
            (Val.num (1 / (numRows (stage4 (stage3 d₂)) : ℚ))) := by
        rw [DF.colD, hd₇w, hd₅w, Option.getD_some]
      have hvrep := hsub.mem hv
      rw [hout] at hvrep
      rw [List.eq_of_mem_replicate hvrep, hnum]

theorem normalizer_weights_amended_wit :
    ((⟨[("Symbol", [Val.str "A"]), ("allocation", [Val.num 1]),
        ("Invested value", [Val.num 1]), ("Value", [Val.num 1]),
        ("Result", [Val.num 0]), ("Weight", [Val.num 1]),
        ("Current Value", [Val.num 1]), ("Cost (£)", [Val.num 1]),
        ("Value (£)", [Val.num 1]), ("P&L (£)", [Val.num 0])]⟩ : DF).colD
      "Weight").Sublist
      (((stage1 ⟨[("Symbol", [Val.str "A"]), ("allocation", [Val.num 1]),
        ("Invested value", [Val.num 1]), ("Value", [Val.num 1]),
        ("Result", [Val.num 0])]⟩).colD "allocation").map toNumeric) :=
  ((normalizer_weights_amended (by decide) (by decide) (by decide) (by decide)
    (by decide)).1 "allocation" (by decide)).2 (by decide)

theorem col?_eq_some_colD {df : DF} {n : String} (h : hasCol df n = true) :
    df.col? n = some (df.colD n) := by
  obtain ⟨vs, hvs⟩ := Option.isSome_iff_exists.mp h
  rw [hvs, DF.colD, hvs, Option.getD_some]

/-- C5, counterexample.  An already-canonical Holding table (`Symbol` plus
`Shares`, the canonical schema) does *not* pass through the normalizer as a
no-op: the unconditional cost/value passthrough raises
`KeyError: 'Invested value'`. -/
theorem normalizer_canonical_noop_cex :
    validate_portfolio_data
      ⟨[("Symbol", [Val.str "MSFT"]), ("Shares", [Val.num 2])]⟩ =
      .error "KeyError: Invested value" := by
  decide

/-- C5, amended.  Normalization is idempotent on its successful results: if
`validate_portfolio_data` maps a rectangular table `df` to `out`, feeding
`out` through it again returns `out` unchanged.  (A first application is in
general *not* a no-op, even on a canonical Holding table: it adds derived
columns and requires the mandatory cost/value columns — see the
counterexample.) -/
theorem validate_idempotent {df out : DF} (hr : Rect df)
    (h : validate_portfolio_data df = .ok out) :
    validate_portfolio_data out = .ok out := by
  have hsymfacts := out_symbol_facts h
  have hslicefacts := out_slice_facts h
  obtain ⟨d₂, d₅, d₇, h₂, h₅, h₇, hod⟩ := validate_cases h
  subst hod
  obtain ⟨h₂sym, h₂pres, h₂r, h₂num, h₂ne⟩ := stage2_facts (stage1_rect hr) h₂
  obtain ⟨h₃symcol, h₃pres, h₃has, h₃r, h₃num, h₃ne⟩ := stage3_facts h₂r h₂sym
  obtain ⟨h₄pres, h₄cn, h₄has, h₄r, h₄num, h₄ne⟩ := stage4_facts h₃r h₃ne
  obtain ⟨h₅sw, h₅pres, h₅r, h₅num, h₅ne⟩ := stage5_facts h₄r h₄ne h₅
  obtain ⟨h₆pres, h₆cv, h₆has, h₆r, h₆num, h₆ne⟩ := stage6_facts h₅r h₅ne
  obtain ⟨h₇pres, h₇r, h₇num, h₇ne⟩ := stage7_facts h₆r h₆ne h₇
  obtain ⟨inv, vals, res, hinv₆, hval₆, hres₆, hd₇eq⟩ := stage7_cases h₇
  have h8r : Rect (stage8 d₇) := rect_filterRows _ h₇r
  have houtr : Rect (stage9 (stage8 d₇)) := rect_filterRows _ h8r
  have h8ne : (stage8 d₇).cols ≠ [] := filterRows_cols_ne_nil _ h₇ne
  have houtne : (stage9 (stage8 d₇)).cols ≠ [] := filterRows_cols_ne_nil _ h8ne
  have hhasout : ∀ n, hasCol (stage9 (stage8 d₇)) n = hasCol d₇ n := by
    intro n
    rw [stage9, hasCol_filterRows, stage8, hasCol_filterRows]
  have hd₇pres : ∀ n, ¬ n = "Cost (£)" → ¬ n = "Value (£)" → ¬ n = "P&L (£)" →
      ¬ n = "Current Value" → d₇.col? n = d₅.col? n := by
    intro n a b c d
    rw [stage7_pres h₇ n a b c, stage6_pres _ n d]
  have hsymout : hasCol (stage9 (stage8 d₇)) "Symbol" = true := by
    rw [hhasout,
      hasCol_of_col?_eq (hd₇pres "Symbol" (by decide) (by decide) (by decide)
        (by decide)),
      hasCol_of_col?_eq (stage5_pres h₅ "Symbol" (by decide) (by decide)),
      hasCol_of_col?_eq (stage4_pres _ "Symbol" (by decide))]
    rcases h₃has "Symbol" with he | ⟨-, he⟩
    · rw [he]; exact h₂sym
    · exact he
  have hsymlen : ((stage9 (stage8 d₇)).colD "Symbol").length =
      numRows (stage9 (stage8 d₇)) := colD_length_of_rect houtr hsymout
  -- step 1 is the identity on the output
  have hA : stage1 (stage9 (stage8 d₇)) = stage9 (stage8 d₇) := by
    cases hsl : (stage9 (stage8 d₇)).col? "Slice" with
    | none => simp only [stage1, hsl]
    | some vs =>
      simp only [stage1, hsl]
      refine filterRows_all_true houtr ?_ ?_
      · intro b hb
        obtain ⟨v, hv, hvb⟩ := List.mem_map.mp hb
        have hvmem : v ∈ (stage9 (stage8 d₇)).colD "Slice" := by
          rw [DF.colD, hsl, Option.getD_some]
          exact hv
        rw [← hvb, hslicefacts v hvmem]
        rfl
      · have hlen : vs.length = numRows (stage9 (stage8 d₇)) := by
          have hhc : hasCol (stage9 (stage8 d₇)) "Slice" = true := by
            rw [hasCol, hsl]; rfl
          have := colD_length_of_rect houtr hhc
          rwa [DF.colD, hsl, Option.getD_some] at this
        rw [List.length_map, hlen]
  -- step 2 finds the Symbol column
  have hB : stage2 (stage9 (stage8 d₇)) = .ok (stage9 (stage8 d₇)) := by
    rw [stage2, if_pos hsymout]
  -- step 3 re-cleans already-clean symbols
  have hC : stage3 (stage9 (stage8 d₇)) = stage9 (stage8 d₇) := by
    have hsymeq : ((stage9 (stage8 d₇)).colD "Symbol").map cleanSym =
        (stage9 (stage8 d₇)).colD "Symbol" := by
      have := List.map_congr_left (l := (stage9 (stage8 d₇)).colD "Symbol")
        (f := cleanSym) (g := id) ?_
      · rw [this, List.map_id]
      · intro v hv
        obtain ⟨⟨w, hw⟩, -, -⟩ := hsymfacts v hv
        rw [hw, cleanSym_idem, id_eq]
    rw [stage3, hsymeq]
    exact setCol_eq_self _ _ _ (col?_eq_some_colD hsymout)
  -- step 4: Company Name already resolved (or Name absent)
  have houtToD4 : ∀ n, ¬ n = "Cost (£)" → ¬ n = "Value (£)" → ¬ n = "P&L (£)" →
      ¬ n = "Current Value" → ¬ n = "Shares" → ¬ n = "Weight" →
      hasCol (stage9 (stage8 d₇)) n = hasCol (stage4 (stage3 d₂)) n := by
    intro n a b c d e f
    rw [hhasout, hasCol_of_col?_eq (hd₇pres n a b c d),
      hasCol_of_col?_eq (stage5_pres h₅ n e f)]
  have hD : stage4 (stage9 (stage8 d₇)) = stage9 (stage8 d₇) := by
    rw [stage4, if_neg ?hcond]
    case hcond =>
      intro hcond
      rw [Bool.and_eq_true] at hcond
      have hname : hasCol (stage9 (stage8 d₇)) "Name" = true := hcond.1
      rw [houtToD4 "Name" (by decide) (by decide) (by decide) (by decide)
        (by decide) (by decide)] at hname
      rw [hasCol_of_col?_eq (stage4_pres _ "Name" (by decide))] at hname
      have hcn : hasCol (stage9 (stage8 d₇)) "Company Name" = true := by
        rw [houtToD4 "Company Name" (by decide) (by decide) (by decide)
          (by decide) (by decide) (by decide)]
        exact h₄cn hname
      rw [hcn] at hcond
      simp at hcond
  -- step 5 skips: Shares or Weight is present
  have hE : stage5 (stage9 (stage8 d₇)) = .ok (stage9 (stage8 d₇)) := by
    have hsw : hasCol (stage9 (stage8 d₇)) "Shares" = true ∨
        hasCol (stage9 (stage8 d₇)) "Weight" = true := by
      rcases h₅sw with hh | hh
      · exact Or.inl (by
          rw [hhasout, hasCol_of_col?_eq (hd₇pres "Shares" (by decide)
            (by decide) (by decide) (by decide))]
          exact hh)
      · exact Or.inr (by
          rw [hhasout, hasCol_of_col?_eq (hd₇pres "Weight" (by decide)
            (by decide) (by decide) (by decide))]
          exact hh)
    rw [stage5, if_neg ?hcond5]
    case hcond5 =>
      intro hcond
      rw [Bool.and_eq_true] at hcond
      rcases hsw with hh | hh
      · rw [hh] at hcond; simp at hcond
      · rw [hh] at hcond; simp at hcond
  -- step 6 skips: Current Value is present
  have hcvout : hasCol (stage9 (stage8 d₇)) "Current Value" = true := by
    have hval₅ : hasCol d₅ "Value" = true := by
      rw [← hasCol_of_col?_eq (stage6_pres d₅ "Value" (by decide)), hasCol, hval₆]
      rfl
    have hcv₆ : hasCol (stage6 d₅) "Current Value" = true := h₆cv hval₅
    rw [hhasout, hd₇eq,
      hasCol_of_col?_eq (col?_setCol_ne _ _ _ _ (by decide)),
      hasCol_of_col?_eq (col?_setCol_ne _ _ _ _ (by decide)),
      hasCol_of_col?_eq (col?_setCol_ne _ _ _ _ (by decide))]
    exact hcv₆
  have hF : stage6 (stage9 (stage8 d₇)) = stage9 (stage8 d₇) := by
    rw [stage6, if_neg ?hcond6]
    case hcond6 =>
      intro hcond
      rw [Bool.and_eq_true] at hcond
      rw [hcvout] at hcond
      simp at hcond
  -- step 7 recomputes the same three derived columns
  have hd₇inv : d₇.col? "Invested value" = some inv := by
    rw [hd₇eq, col?_setCol_ne _ _ _ _ (by decide),
      col?_setCol_ne _ _ _ _ (by decide), col?_setCol_ne _ _ _ _ (by decide),
      hinv₆]
  have hd₇val : d₇.col? "Value" = some vals := by
    rw [hd₇eq, col?_setCol_ne _ _ _ _ (by decide),
      col?_setCol_ne _ _ _ _ (by decide), col?_setCol_ne _ _ _ _ (by decide),
      hval₆]
  have hd₇res : d₇.col? "Result" = some res := by
    rw [hd₇eq, col?_setCol_ne _ _ _ _ (by decide),
      col?_setCol_ne _ _ _ _ (by decide), col?_setCol_ne _ _ _ _ (by decide),
      hres₆]
  have hd₇C : d₇.col? "Cost (£)" = some (inv.map toNumeric) := by
    rw [hd₇eq, col?_setCol_ne _ _ _ _ (by decide),
      col?_setCol_ne _ _ _ _ (by decide), col?_setCol_self]
  have hd₇V : d₇.col? "Value (£)" = some (vals.map toNumeric) := by
    rw [hd₇eq, col?_setCol_ne _ _ _ _ (by decide), col?_setCol_self]
  have hd₇P : d₇.col? "P&L (£)" = some (res.map toNumeric) := by
    rw [hd₇eq, col?_setCol_self]
  have houtpair : ∀ n n' vs, d₇.col? n = some vs →
      d₇.col? n' = some (vs.map toNumeric) →
      (stage9 (stage8 d₇)).col? n' =
        some (((stage9 (stage8 d₇)).colD n).map toNumeric) := by
    intro n n' vs hv hv'
    simp only [stage9, stage8, col?_filterRows, DF.colD, hv, hv',
      Option.map_some', Option.getD_some, applyMask_map_comm]
  have hG : stage7 (stage9 (stage8 d₇)) = .ok (stage9 (stage8 d₇)) := by
    have hinvout : (stage9 (stage8 d₇)).col? "Invested value" =
        some ((stage9 (stage8 d₇)).colD "Invested value") :=
      col?_eq_some_colD (by rw [hhasout, hasCol, hd₇inv]; rfl)
    have hCset : setCol (stage9 (stage8 d₇)) "Cost (£)"
        (((stage9 (stage8 d₇)).colD "Invested value").map toNumeric) =
        stage9 (stage8 d₇) :=
      setCol_eq_self _ _ _ (houtpair "Invested value" "Cost (£)" inv hd₇inv hd₇C)
    have hvalout : (stage9 (stage8 d₇)).col? "Value" =
        some ((stage9 (stage8 d₇)).colD "Value") :=
      col?_eq_some_colD (by rw [hhasout, hasCol, hd₇val]; rfl)
    have hVset : setCol (stage9 (stage8 d₇)) "Value (£)"
        (((stage9 (stage8 d₇)).colD "Value").map toNumeric) =
        stage9 (stage8 d₇) :=
      setCol_eq_self _ _ _ (houtpair "Value" "Value (£)" vals hd₇val hd₇V)
    have hresout : (stage9 (stage8 d₇)).col? "Result" =
        some ((stage9 (stage8 d₇)).colD "Result") :=
      col?_eq_some_colD (by rw [hhasout, hasCol, hd₇res]; rfl)
    have hPset : setCol (stage9 (stage8 d₇)) "P&L (£)"
        (((stage9 (stage8 d₇)).colD "Result").map toNumeric) =
        stage9 (stage8 d₇) :=
      setCol_eq_self _ _ _ (houtpair "Result" "P&L (£)" res hd₇res hd₇P)
    rw [stage7, hinvout]
    dsimp only
    rw [hCset, hvalout]
    dsimp only
    rw [hVset, hresout]
    dsimp only
    rw [hPset]
  -- steps 8 and 9 drop nothing
  have hH : stage8 (stage9 (stage8 d₇)) = stage9 (stage8 d₇) := by
    rw [stage8]
    refine filterRows_all_true houtr ?_ ?_
    · intro b hb
      obtain ⟨v, hv, hvb⟩ := List.mem_map.mp hb
      obtain ⟨-, -, hna⟩ := hsymfacts v hv
      rw [← hvb]
      simp [hna]
    · rw [List.length_map, hsymlen]
  have hI : stage9 (stage9 (stage8 d₇)) = stage9 (stage8 d₇) := by
    conv_lhs => rw [stage9]
    refine filterRows_all_true houtr ?_ ?_
    · intro b hb
      obtain ⟨v, hv, hvb⟩ := List.mem_map.mp hb
      obtain ⟨-, hemp, -⟩ := hsymfacts v hv
      rw [← hvb]
      simp [hemp]
    · rw [List.length_map, hsymlen]
  rw [validate_portfolio_data, hA, hB]
  dsimp only [Except.bind]
  rw [hC, hD, hE]
  dsimp only [Except.bind]
  rw [hF, hG]
  dsimp only [Except.map]
  rw [hH, hI]

theorem validate_idempotent_wit :
    validate_portfolio_data
      ⟨[("Symbol", [Val.str "AAPL"]), ("Shares", [Val.num 1]),
        ("Invested value", [Val.num 10]), ("Value", [Val.num 12]),
        ("Result", [Val.num 2]), ("Current Value", [Val.num 12]),
        ("Cost (£)", [Val.num 10]), ("Value (£)", [Val.num 12]),
        ("P&L (£)", [Val.num 2])]⟩ =
      .ok ⟨[("Symbol", [Val.str "AAPL"]), ("Shares", [Val.num 1]),
        ("Invested value", [Val.num 10]), ("Value", [Val.num 12]),
        ("Result", [Val.num 2]), ("Current Value", [Val.num 12]),
        ("Cost (£)", [Val.num 10]), ("Value (£)", [Val.num 12]),
        ("P&L (£)", [Val.num 2])]⟩ :=
  @validate_idempotent
    ⟨[("Symbol", [Val.str "AAPL"]), ("Shares", [Val.num 1]),
      ("Invested value", [Val.num 10]), ("Value", [Val.num 12]),
      ("Result", [Val.num 2])]⟩
    ⟨[("Symbol", [Val.str "AAPL"]), ("Shares", [Val.num 1]),
      ("Invested value", [Val.num 10]), ("Value", [Val.num 12]),
      ("Result", [Val.num 2]), ("Current Value", [Val.num 12]),
      ("Cost (£)", [Val.num 10]), ("Value (£)", [Val.num 12]),
      ("P&L (£)", [Val.num 2])]⟩ (by decide) (by decide)

/-- C10.  Construction operates on a copy: the analyzer's cell is fresh
(distinct from every existing reference, in particular the caller's), every
pre-existing cell — the caller's DataFrame included — is unchanged by
construction and validation, and read-only analyzer operations return the
store untouched. -/
theorem pa_init_frame (σ : Store) (caller : ℕ) (hc : caller < σ.length) :
    (∀ σ₂ self, pa_init σ caller = .ok (σ₂, self) →
      self ≠ caller ∧
      (∀ i, i < σ.length → σ₂.getD i emptyDF = σ.getD i emptyDF) ∧
      σ₂.getD caller emptyDF = σ.getD caller emptyDF) ∧
    (∀ (α : Type) (f : DF → α) (r : ℕ), (pa_read_op f σ r).1 = σ) := by
  constructor
  · intro σ₂ self h
    rw [pa_init] at h
    cases hv : validate_portfolio_data (σ.getD caller emptyDF) with
    | error e => rw [hv] at h; exact Except.noConfusion h
    | ok dfv =>
      rw [hv] at h
      dsimp only at h
      have hinj := (Except.ok.injEq _ _).mp h
      rw [Prod.mk.injEq] at hinj
      obtain ⟨hσ, hself⟩ := hinj
      have hich : ∀ i, i < σ.length → σ₂.getD i emptyDF = σ.getD i emptyDF := by
        intro i hi
        rw [← hσ, List.getD_eq_getElem?_getD,
          List.getElem?_set_ne (by omega : σ.length ≠ i),
          List.getElem?_append_left hi, ← List.getD_eq_getElem?_getD]
      exact ⟨by omega, hich, hich caller hc⟩
  · intro α f r
    rfl

theorem pa_init_frame_wit :
    (1 : ℕ) ≠ 0 ∧
    ((([dfDemo] : Store) ++ [dfDemo]).set 1 dfDemoOut).getD 0 emptyDF =
      ([dfDemo] : Store).getD 0 emptyDF := by
  have h := (pa_init_frame [dfDemo] 0 (by decide)).1
    ((([dfDemo] : Store) ++ [dfDemo]).set 1 dfDemoOut) 1 (by decide)
  exact ⟨h.1, h.2.2⟩
